import Mathlib

/-!
# Session API handlers and org-domain event mappers

A verification development for two files of the repository:

* `internal/api/grpc/session/v2/session.go` (namespace `Session`): the gRPC
  handlers for sessions and the conversions between wire messages, queries
  and command checks;
* `internal/v2/repository/org/domain.go` (namespace `Org`): the org-domain
  events and the mappers that decode them from stored events.

Conventions of the embedding.

* A Go function returning `(T, error)` is a Lean function returning a pair
  `Option T × Option Error`; `none` stands for `nil` on either side.
* A pointer or interface value that the code tests against `nil`, or reads
  through a nil-safe getter, is an `Option`.  Messages inside a decoded
  request (elements of a repeated field, the message of a set oneof) are
  plain values.
* Collaborators that live outside the two files (the query layer, the command
  layer, the object converters) are fields of `Session.Deps`; each yields
  either a value or an error.
* `json.Unmarshal` is the decoder of namespace `EncodingJSON`.
-/

/-! ## The JSON decoder

The part of Go's `encoding/json` that `json.Unmarshal` runs when it decodes
into a pointer to a struct.  `Unmarshal` first runs `checkValid`, the scanner
of `scanner.go`, over the whole input and returns its syntax error if there is
one; then it walks the value and stores the members of an object into the
fields of the struct (`decode.go`).

* The scanner is the state machine of `scanner.go`, one step function for each
  state.  To its fields are added the literal being read and the values already
  read, so that `checkValid` also returns the value that the decoder walks
  (`checkValid_spec`: it does so exactly when the scanner finds no error).
* A payload is a sequence of characters, that is well-formed UTF-8 text, and a
  Go string is a Lean string.
* Offsets, Go types and field paths of the errors are left out.
-/

namespace EncodingJSON

/-- A JSON value as the scanner delimits it. -/
inductive Value where
  | null
  | bool (b : Bool)
  | number (lit : List Char)
  | string (raw : List Char)
  | array (elems : List Value)
  | object (members : List (List Char × Value))

/-- The step functions of the scanner. -/
inductive Step where
  | stateBeginValue | stateBeginValueOrEmpty | stateBeginStringOrEmpty | stateBeginString
  | stateEndValue | stateEndTop
  | stateInString | stateInStringEsc | stateInStringEscU | stateInStringEscU1
  | stateInStringEscU12 | stateInStringEscU123
  | stateNeg | state1 | state0 | stateDot | stateDot0 | stateE | stateESign | stateE0
  | stateT | stateTr | stateTru | stateF | stateFa | stateFal | stateFals
  | stateN | stateNu | stateNul
  | stateError
  deriving DecidableEq, Repr

/-- An entry of the scanner's `parseState` stack, with what has been read of
the composite value it stands for: the members or elements finished so far
and, in an object, the key whose value is awaited. -/
inductive Frame where
  | parseObjectKey (members : List (List Char × Value)) (key : Option (List Char))
  | parseObjectValue (members : List (List Char × Value)) (key : Option (List Char))
  | parseArrayValue (elems : List Value)

/-- `SyntaxError`: the offending character (`none` at the end of the input)
and the context of the message.  The offset is left out. -/
structure SyntaxError where
  char : Option Char
  context : String
  deriving DecidableEq, Repr

/-- The scanner of `scanner.go`, extended with the literal being read and the
values finished so far. -/
structure Scanner where
  step : Step
  parseState : List Frame
  endTop : Bool
  err : Option SyntaxError
  lit : List Char
  value : Option Value

/-- `scanner.reset`. -/
def Scanner.reset : Scanner :=
  { step := .stateBeginValue, parseState := [], endTop := false, err := none, lit := [],
    value := none }

/-- `scanner.error`. -/
def Scanner.error (s : Scanner) (c : Char) (context : String) : Scanner :=
  { s with step := .stateError, err := some { char := some c, context := context } }

/-- A finished value is handed to the composite value being read, or kept as
the top-level value. -/
def Scanner.emit (s : Scanner) (v : Value) : Scanner :=
  match s.parseState with
  | [] => { s with value := some v }
  | .parseObjectKey ms _ :: rest =>
    match v with
    | .string raw => { s with parseState := .parseObjectKey ms (some raw) :: rest }
    | _ => s
  | .parseObjectValue ms (some k) :: rest =>
    { s with parseState := .parseObjectValue (ms ++ [(k, v)]) none :: rest }
  | .parseObjectValue _ none :: _ => s
  | .parseArrayValue es :: rest => { s with parseState := .parseArrayValue (es ++ [v]) :: rest }

/-- `isSpace`. -/
def isSpace (c : Char) : Bool := c == ' ' || c == '\t' || c == '\r' || c == '\n'

/-- A decimal digit. -/
def isDigit (c : Char) : Bool := '0' ≤ c && c ≤ '9'

/-- A hexadecimal digit. -/
def isHex (c : Char) : Bool :=
  ('0' ≤ c && c ≤ '9') || ('a' ≤ c && c ≤ 'f') || ('A' ≤ c && c ≤ 'F')

/-- `scanner.popParseState`, the finished composite value being `v`. -/
def Scanner.popParseState (s : Scanner) (v : Value) : Scanner :=
  match s.parseState with
  | [] => s
  | _ :: rest =>
    let s := Scanner.emit { s with parseState := rest } v
    if rest.isEmpty then { s with step := .stateEndTop, endTop := true }
    else { s with step := .stateEndValue }

/-- `maxNestingDepth`, the limit on the depth of nested arrays and objects. -/
def maxNestingDepth : Nat := 10000

/-- `scanner.pushParseState`: the frame is pushed, and a stack deeper than
`maxNestingDepth` is an error. -/
def Scanner.pushParseState (s : Scanner) (c : Char) (newParseState : Frame) : Scanner :=
  let s := { s with parseState := newParseState :: s.parseState }
  if s.parseState.length ≤ maxNestingDepth then s else s.error c "exceeded max depth"

/-- `stateEndTop`. -/
def stateEndTop (s : Scanner) (c : Char) : Scanner :=
  if !isSpace c then s.error c "after top-level value" else s

/-- `stateEndValue`. -/
def stateEndValue (s : Scanner) (c : Char) : Scanner :=
  match s.parseState with
  | [] => stateEndTop { s with step := .stateEndTop, endTop := true } c
  | ps :: rest =>
    if isSpace c then { s with step := .stateEndValue }
    else
      match ps with
      | .parseObjectKey ms key =>
        if c == ':' then
          { s with parseState := .parseObjectValue ms key :: rest, step := .stateBeginValue }
        else s.error c "after object key"
      | .parseObjectValue ms _ =>
        if c == ',' then
          { s with parseState := .parseObjectKey ms none :: rest, step := .stateBeginString }
        else if c == '}' then s.popParseState (.object ms)
        else s.error c "after object key:value pair"
      | .parseArrayValue es =>
        if c == ',' then { s with step := .stateBeginValue }
        else if c == ']' then s.popParseState (.array es)
        else s.error c "after array element"

/-- `stateBeginValue`. -/
def stateBeginValue (s : Scanner) (c : Char) : Scanner :=
  if isSpace c then s
  else if c == '{' then
    Scanner.pushParseState { s with step := .stateBeginStringOrEmpty } c (.parseObjectKey [] none)
  else if c == '[' then
    Scanner.pushParseState { s with step := .stateBeginValueOrEmpty } c (.parseArrayValue [])
  else if c == '"' then { s with step := .stateInString, lit := [] }
  else if c == '-' then { s with step := .stateNeg, lit := [c] }
  else if c == '0' then { s with step := .state0, lit := [c] }
  else if c == 't' then { s with step := .stateT }
  else if c == 'f' then { s with step := .stateF }
  else if c == 'n' then { s with step := .stateN }
  else if '1' ≤ c && c ≤ '9' then { s with step := .state1, lit := [c] }
  else s.error c "looking for beginning of value"

/-- `stateBeginValueOrEmpty`. -/
def stateBeginValueOrEmpty (s : Scanner) (c : Char) : Scanner :=
  if isSpace c then s
  else if c == ']' then stateEndValue s c
  else stateBeginValue s c

/-- `stateBeginString`. -/
def stateBeginString (s : Scanner) (c : Char) : Scanner :=
  if isSpace c then s
  else if c == '"' then { s with step := .stateInString, lit := [] }
  else s.error c "looking for beginning of object key string"

/-- `stateBeginStringOrEmpty`. -/
def stateBeginStringOrEmpty (s : Scanner) (c : Char) : Scanner :=
  if isSpace c then s
  else if c == '}' then
    match s.parseState with
    | .parseObjectKey ms _ :: rest =>
      stateEndValue { s with parseState := .parseObjectValue ms none :: rest } c
    | _ => s.error c ""
  else stateBeginString s c

/-- `stateInString`. -/
def stateInString (s : Scanner) (c : Char) : Scanner :=
  if c == '"' then Scanner.emit { s with step := .stateEndValue, lit := [] } (.string s.lit)
  else if c == '\\' then { s with step := .stateInStringEsc, lit := s.lit ++ [c] }
  else if c.toNat < 0x20 then s.error c "in string literal"
  else { s with lit := s.lit ++ [c] }

/-- `stateInStringEsc`. -/
def stateInStringEsc (s : Scanner) (c : Char) : Scanner :=
  if c == 'b' || c == 'f' || c == 'n' || c == 'r' || c == 't' || c == '\\' || c == '/'
      || c == '"' then
    { s with step := .stateInString, lit := s.lit ++ [c] }
  else if c == 'u' then { s with step := .stateInStringEscU, lit := s.lit ++ [c] }
  else s.error c "in string escape code"

/-- The states `stateInStringEscU`, `U1`, `U12` and `U123`, which differ in
the state that follows. -/
def stateInStringEscUn (next : Step) (s : Scanner) (c : Char) : Scanner :=
  if isHex c then { s with step := next, lit := s.lit ++ [c] }
  else s.error c "in \\u hexadecimal character escape"

/-- The number literal read so far is finished. -/
def Scanner.emitNumber (s : Scanner) : Scanner :=
  Scanner.emit { s with lit := [] } (.number s.lit)

/-- `state0`. -/
def state0 (s : Scanner) (c : Char) : Scanner :=
  if c == '.' then { s with step := .stateDot, lit := s.lit ++ [c] }
  else if c == 'e' || c == 'E' then { s with step := .stateE, lit := s.lit ++ [c] }
  else stateEndValue s.emitNumber c

/-- `state1`. -/
def state1 (s : Scanner) (c : Char) : Scanner :=
  if isDigit c then { s with step := .state1, lit := s.lit ++ [c] }
  else state0 s c

/-- `stateNeg`. -/
def stateNeg (s : Scanner) (c : Char) : Scanner :=
  if c == '0' then { s with step := .state0, lit := s.lit ++ [c] }
  else if '1' ≤ c && c ≤ '9' then { s with step := .state1, lit := s.lit ++ [c] }
  else s.error c "in numeric literal"

/-- `stateDot`. -/
def stateDot (s : Scanner) (c : Char) : Scanner :=
  if isDigit c then { s with step := .stateDot0, lit := s.lit ++ [c] }
  else s.error c "after decimal point in numeric literal"

/-- `stateDot0`. -/
def stateDot0 (s : Scanner) (c : Char) : Scanner :=
  if isDigit c then { s with lit := s.lit ++ [c] }
  else if c == 'e' || c == 'E' then { s with step := .stateE, lit := s.lit ++ [c] }
  else stateEndValue s.emitNumber c

/-- `stateESign`. -/
def stateESign (s : Scanner) (c : Char) : Scanner :=
  if isDigit c then { s with step := .stateE0, lit := s.lit ++ [c] }
  else s.error c "in exponent of numeric literal"

/-- `stateE`. -/
def stateE (s : Scanner) (c : Char) : Scanner :=
  if c == '+' || c == '-' then { s with step := .stateESign, lit := s.lit ++ [c] }
  else stateESign s c

/-- `stateE0`. -/
def stateE0 (s : Scanner) (c : Char) : Scanner :=
  if isDigit c then { s with lit := s.lit ++ [c] }
  else stateEndValue s.emitNumber c

/-- The states inside `true`, `false` and `null` before the last letter. -/
def stateLetter (want : Char) (next : Step) (context : String) (s : Scanner) (c : Char) :
    Scanner :=
  if c == want then { s with step := next } else s.error c context

/-- The states `stateTru`, `stateFals` and `stateNul`, at the last letter. -/
def stateLast (want : Char) (v : Value) (context : String) (s : Scanner) (c : Char) :
    Scanner :=
  if c == want then Scanner.emit { s with step := .stateEndValue } v else s.error c context

/-- The call `s.step(s, c)`. -/
def Scanner.next (s : Scanner) (c : Char) : Scanner :=
  match s.step with
  | .stateBeginValue => stateBeginValue s c
  | .stateBeginValueOrEmpty => stateBeginValueOrEmpty s c
  | .stateBeginStringOrEmpty => stateBeginStringOrEmpty s c
  | .stateBeginString => stateBeginString s c
  | .stateEndValue => stateEndValue s c
  | .stateEndTop => stateEndTop s c
  | .stateInString => stateInString s c
  | .stateInStringEsc => stateInStringEsc s c
  | .stateInStringEscU => stateInStringEscUn .stateInStringEscU1 s c
  | .stateInStringEscU1 => stateInStringEscUn .stateInStringEscU12 s c
  | .stateInStringEscU12 => stateInStringEscUn .stateInStringEscU123 s c
  | .stateInStringEscU123 => stateInStringEscUn .stateInString s c
  | .stateNeg => stateNeg s c
  | .state1 => state1 s c
  | .state0 => state0 s c
  | .stateDot => stateDot s c
  | .stateDot0 => stateDot0 s c
  | .stateE => stateE s c
  | .stateESign => stateESign s c
  | .stateE0 => stateE0 s c
  | .stateT => stateLetter 'r' .stateTr "in literal true (expecting 'r')" s c
  | .stateTr => stateLetter 'u' .stateTru "in literal true (expecting 'u')" s c
  | .stateTru => stateLast 'e' (.bool true) "in literal true (expecting 'e')" s c
  | .stateF => stateLetter 'a' .stateFa "in literal false (expecting 'a')" s c
  | .stateFa => stateLetter 'l' .stateFal "in literal false (expecting 'l')" s c
  | .stateFal => stateLetter 's' .stateFals "in literal false (expecting 's')" s c
  | .stateFals => stateLast 'e' (.bool false) "in literal false (expecting 'e')" s c
  | .stateN => stateLetter 'u' .stateNu "in literal null (expecting 'u')" s c
  | .stateNu => stateLetter 'l' .stateNul "in literal null (expecting 'l')" s c
  | .stateNul => stateLast 'l' .null "in literal null (expecting 'l')" s c
  | .stateError => s

/-- `scanner.eof`. -/
def Scanner.eof (s : Scanner) : Scanner :=
  if s.err.isSome then s
  else if s.endTop then s
  else
    let s := s.next ' '
    if s.endTop then s
    else if s.err.isNone then
      { s with err := some { char := none, context := "unexpected end of JSON input" } }
    else s

/-- `checkValid`: the syntax error of the input, or the value it holds. -/
def checkValid (data : List Char) : Except SyntaxError Value :=
  let s := (data.foldl Scanner.next Scanner.reset).eof
  match s.err, s.value with
  | some e, _ => .error e
  | none, some v => .ok v
  | none, none => .error { char := none, context := "unexpected end of JSON input" }

/-! ### The decoder -/

/-- `UnmarshalTypeError`: a JSON value that does not fit the Go value it is
decoded into; `Value` describes the JSON value.  The offset, the Go type and
the field path are left out. -/
structure UnmarshalTypeError where
  Value : String
  deriving DecidableEq, Repr

/-- The errors of `Unmarshal`: a syntax error, a type error, an error of
another kind made while a field is stored, and the failure the decoder raises
when it cannot unquote a string that the scanner let through. -/
inductive JSONError where
  | syntaxError (e : SyntaxError)
  | unmarshalTypeError (e : UnmarshalTypeError)
  | other (description : String)
  | phasePanic
  deriving DecidableEq, Repr

/-- The value of a hexadecimal digit. -/
def hexValue (c : Char) : Option Nat :=
  if '0' ≤ c && c ≤ '9' then some (c.toNat - '0'.toNat)
  else if 'a' ≤ c && c ≤ 'f' then some (c.toNat - 'a'.toNat + 10)
  else if 'A' ≤ c && c ≤ 'F' then some (c.toNat - 'A'.toNat + 10)
  else none

/-- `getu4`: the code unit of a leading `\uXXXX`, if there is one. -/
def getu4 : List Char → Option Nat
  | '\\' :: 'u' :: a :: b :: c :: d :: _ =>
    match hexValue a, hexValue b, hexValue c, hexValue d with
    | some a, some b, some c, some d => some (((a * 16 + b) * 16 + c) * 16 + d)
    | _, _, _, _ => none
  | _ => none

/-- `unicode.ReplacementChar`. -/
def ReplacementChar : Nat := 0xFFFD

/-- `utf16.IsSurrogate`. -/
def IsSurrogate (r : Nat) : Bool := 0xd800 ≤ r && r < 0xe000

/-- `utf16.DecodeRune`, with `none` for a missing second code unit. -/
def DecodeRune (r1 : Nat) (r2 : Option Nat) : Nat :=
  match r2 with
  | some r2 =>
    if 0xd800 ≤ r1 && r1 < 0xdc00 && 0xdc00 ≤ r2 && r2 < 0xe000 then
      (r1 - 0xd800) * 1024 + (r2 - 0xdc00) + 0x10000
    else ReplacementChar
  | none => ReplacementChar

/-- The loop of `unquoteBytes` over what is left of the text between the
quotes, with the characters it writes: escapes are replaced by the characters
they stand for, and the result is `none` where the Go function reports
`ok = false`.  Every turn reads at least one character; `fuel` bounds the
number of turns and is never used up when it exceeds the length of the text
(`unquoteBytes_loop_fuel`). -/
def unquoteBytes.loop : Nat → List Char → Option (List Char)
  | 0, _ => none
  | _ + 1, [] => some []
  | fuel + 1, c :: rest =>
    if c == '\\' then
      match rest with
      | [] => none
      | e :: rest1 =>
        if e == '"' || e == '\\' || e == '/' || e == '\'' then
          (unquoteBytes.loop fuel rest1).map (e :: ·)
        else if e == 'b' then (unquoteBytes.loop fuel rest1).map (Char.ofNat 8 :: ·)
        else if e == 'f' then (unquoteBytes.loop fuel rest1).map (Char.ofNat 12 :: ·)
        else if e == 'n' then (unquoteBytes.loop fuel rest1).map ('\n' :: ·)
        else if e == 'r' then (unquoteBytes.loop fuel rest1).map ('\r' :: ·)
        else if e == 't' then (unquoteBytes.loop fuel rest1).map ('\t' :: ·)
        else if e == 'u' then
          match getu4 (c :: rest) with
          | none => none
          | some rr =>
            if IsSurrogate rr then
              let dec := DecodeRune rr (getu4 (rest1.drop 4))
              if dec != ReplacementChar then
                -- A valid pair; consume.
                (unquoteBytes.loop fuel (rest1.drop 10)).map (Char.ofNat dec :: ·)
              else
                -- Invalid surrogate; fall back to replacement rune.
                (unquoteBytes.loop fuel (rest1.drop 4)).map (Char.ofNat ReplacementChar :: ·)
            else (unquoteBytes.loop fuel (rest1.drop 4)).map (Char.ofNat rr :: ·)
        else none
    else if c == '"' || c.toNat < 0x20 then none
    else (unquoteBytes.loop fuel rest).map (c :: ·)

/-- `unquoteBytes`, on the text between the quotes. -/
def unquoteBytes (s : List Char) : Option (List Char) :=
  unquoteBytes.loop (s.length + 1) s

/-- The byte `b & caseMask` compared by the fold functions; a character
outside ASCII is made of bytes that equal no masked ASCII letter. -/
def foldByte (c : Char) : Nat :=
  if c.toNat < 128 then c.toNat &&& 0xDF else c.toNat + 256

/-- `simpleLetterEqualFold`, the fold function that `foldFunc` picks for a
field name made of ASCII letters other than `k`, `s`, `K` and `S`. -/
def simpleLetterEqualFold : List Char → List Char → Bool
  | [], [] => true
  | b :: s, c :: t => foldByte b == foldByte c && simpleLetterEqualFold s t
  | _, _ => false

/-- A field of the struct `σ` as the decoder sees it: the name in the JSON tag
and the way a value is stored into it, which yields the struct after the store
and the error to save, if any. -/
structure StructField (σ : Type) where
  name : List Char
  store : Value → σ → σ × Option JSONError

/-- The field that an object key selects: the field of that exact name, else
the first field whose name equals the key under the fold function. -/
def findField {σ : Type} (fields : List (StructField σ)) (key : List Char) :
    Option (StructField σ) :=
  match fields.find? (fun f => f.name == key) with
  | some f => some f
  | none => fields.find? (fun f => simpleLetterEqualFold f.name key)

/-- `decodeState.saveError`: the first error is kept. -/
def saveError (saved err : Option JSONError) : Option JSONError :=
  match saved with
  | some e => some e
  | none => err

/-- The loop of `decodeState.object` over the members of an object: the value
of a key that selects a field is stored into it, any other value is skipped. -/
def decodeObject {σ : Type} (fields : List (StructField σ)) :
    List (List Char × Value) → σ × Option JSONError → σ × Option JSONError
  | [], acc => acc
  | (rawKey, v) :: rest, (s, saved) =>
    match unquoteBytes rawKey with
    | none => (s, saveError saved (some .phasePanic))
    | some key =>
      match findField fields key with
      | some f =>
        let r := f.store v s
        decodeObject fields rest (r.1, saveError saved r.2)
      | none => decodeObject fields rest (s, saved)

/-- `decodeState.value` into a struct: an object is decoded member by member,
`null` leaves the struct as it is, any other value is a type error. -/
def decodeStruct {σ : Type} (fields : List (StructField σ)) (v : Value) (s : σ) :
    σ × Option JSONError :=
  match v with
  | .object members => decodeObject fields members (s, none)
  | .null => (s, none)
  | .bool _ => (s, some (.unmarshalTypeError { Value := "bool" }))
  | .number _ => (s, some (.unmarshalTypeError { Value := "number" }))
  | .string _ => (s, some (.unmarshalTypeError { Value := "string" }))
  | .array _ => (s, some (.unmarshalTypeError { Value := "array" }))

/-- `Unmarshal(data, &s)` for a struct `s` with the given fields: the struct
as the decoder leaves it, and the error. -/
def Unmarshal {σ : Type} (fields : List (StructField σ)) (data : List Char) (s : σ) :
    σ × Option JSONError :=
  match checkValid data with
  | .error e => (s, some (.syntaxError e))
  | .ok v => decodeStruct fields v s

/-- The store of a value into a Go `string`. -/
def storeString (v : Value) (cur : String) : String × Option JSONError :=
  match v with
  | .string raw =>
    match unquoteBytes raw with
    | some s => (String.mk s, none)
    | none => (cur, some .phasePanic)
  | .null => (cur, none)
  | .bool _ => (cur, some (.unmarshalTypeError { Value := "bool" }))
  | .number _ => (cur, some (.unmarshalTypeError { Value := "number" }))
  | .array _ => (cur, some (.unmarshalTypeError { Value := "array" }))
  | .object _ => (cur, some (.unmarshalTypeError { Value := "object" }))

/-- The value of a non-empty run of decimal digits. -/
def parseDigits : List Char → Option Nat
  | [] => none
  | c :: cs => (c :: cs).foldl
      (fun acc d => if isDigit d then acc.map (· * 10 + (d.toNat - '0'.toNat)) else none) (some 0)

/-- `strconv.ParseInt(s, 10, 64)`, with `none` for an error. -/
def ParseInt (s : List Char) : Option Int :=
  match s with
  | '-' :: ds => (parseDigits ds).bind fun n => if n ≤ 2 ^ 63 then some (-(n : Int)) else none
  | '+' :: ds => (parseDigits ds).bind fun n => if n < 2 ^ 63 then some (n : Int) else none
  | ds => (parseDigits ds).bind fun n => if n < 2 ^ 63 then some (n : Int) else none

/-- The store of a value into a Go signed integer of `bits` bits. -/
def storeInt (bits : Nat) (v : Value) (cur : Int) : Int × Option JSONError :=
  match v with
  | .number lit =>
    match ParseInt lit with
    | some n =>
      if -(2 ^ (bits - 1) : Int) ≤ n ∧ n < (2 ^ (bits - 1) : Int) then (n, none)
      else (cur, some (.unmarshalTypeError { Value := "number " ++ String.mk lit }))
    | none => (cur, some (.unmarshalTypeError { Value := "number " ++ String.mk lit }))
  | .null => (cur, none)
  | .bool _ => (cur, some (.unmarshalTypeError { Value := "bool" }))
  | .string _ => (cur, some (.unmarshalTypeError { Value := "string" }))
  | .array _ => (cur, some (.unmarshalTypeError { Value := "array" }))
  | .object _ => (cur, some (.unmarshalTypeError { Value := "object" }))

/-- The store of a value into a Go pointer: `null` sets the pointer to nil,
any other value is stored into what the pointer points to, a nil pointer
being set to a new zero value first. -/
def storePtr {α : Type} (zero : α) (store : Value → α → α × Option JSONError) (v : Value)
    (cur : Option α) : Option α × Option JSONError :=
  match v with
  | .null => (none, none)
  | v =>
    let r := store v (cur.getD zero)
    (some r.1, r.2)

/-- An object key selects the field of the given JSON name when, unquoted, it
equals the name under the fold function, as an equal key does. -/
def selects (name : String) (rawKey : List Char) : Bool :=
  match unquoteBytes rawKey with
  | some key => simpleLetterEqualFold name.toList key
  | none => false

/-- A value that a Go string takes without error: a string or `null`. -/
def fitsString : Value → Bool
  | .string _ => true
  | .null => true
  | _ => false

/-- The string that the members of an object leave, in their order, in a
string field of the given JSON name that held `cur`: every member whose key
selects the field stores its value into it. -/
def stringOf (name : String) (members : List (List Char × Value)) (cur : String) : String :=
  members.foldl (fun d m => if selects name m.1 then (storeString m.2 d).1 else d) cur

/-- The fields of a struct whose one JSON field is a string of the given
name, read by `get` and written by `set`. -/
def stringField {σ : Type} (name : String) (get : σ → String) (set : σ → String → σ) :
    List (StructField σ) :=
  [{ name := name.toList
     store := fun v e => let r := storeString v (get e); (set e r.1, r.2) }]

/-! ### Well-formed texts and the scanner invariant -/

/-- The text between the quotes of a string literal that the scanner lets
through: a run of plain characters, two-character escapes and `\uXXXX`
escapes. -/
inductive Units : List Char → Prop where
  | nil : Units []
  | plain (c : Char) (rest : List Char) :
      (c == '"') = false → (c == '\\') = false → ¬ c.toNat < 0x20 → Units rest →
      Units (c :: rest)
  | esc (e : Char) (rest : List Char) :
      (e == 'b' || e == 'f' || e == 'n' || e == 'r' || e == 't' || e == '\\' || e == '/'
        || e == '"') = true →
      Units rest → Units ('\\' :: e :: rest)
  | uni (a b c d : Char) (rest : List Char) :
      isHex a = true → isHex b = true → isHex c = true → isHex d = true → Units rest →
      Units ('\\' :: 'u' :: a :: b :: c :: d :: rest)

/-- A value whose string literals and object keys are texts that the scanner
lets through. -/
inductive Value.Wf : Value → Prop where
  | null : Value.Wf .null
  | bool (b : Bool) : Value.Wf (.bool b)
  | number (lit : List Char) : Value.Wf (.number lit)
  | string (raw : List Char) : Units raw → Value.Wf (.string raw)
  | array (elems : List Value) : (∀ e ∈ elems, Value.Wf e) → Value.Wf (.array elems)
  | object (members : List (List Char × Value)) :
      (∀ m ∈ members, Units m.1) → (∀ m ∈ members, Value.Wf m.2) →
      Value.Wf (.object members)

/-- What the scanner has read of a string literal, by the state it is in. -/
def litOK (step : Step) (lit : List Char) : Prop :=
  match step with
  | .stateInString => Units lit
  | .stateInStringEsc => ∃ p, Units p ∧ lit = p ++ ['\\']
  | .stateInStringEscU => ∃ p, Units p ∧ lit = p ++ ['\\', 'u']
  | .stateInStringEscU1 => ∃ p a, Units p ∧ isHex a = true ∧ lit = p ++ ['\\', 'u', a]
  | .stateInStringEscU12 =>
    ∃ p a b, Units p ∧ isHex a = true ∧ isHex b = true ∧ lit = p ++ ['\\', 'u', a, b]
  | .stateInStringEscU123 =>
    ∃ p a b c, Units p ∧ isHex a = true ∧ isHex b = true ∧ isHex c = true ∧
      lit = p ++ ['\\', 'u', a, b, c]
  | _ => True

/-- The values and keys held by a frame are well formed. -/
def Frame.OK : Frame → Prop
  | .parseObjectKey ms key =>
    (∀ m ∈ ms, Units m.1 ∧ Value.Wf m.2) ∧ (∀ k, key = some k → Units k)
  | .parseObjectValue ms key =>
    (∀ m ∈ ms, Units m.1 ∧ Value.Wf m.2) ∧ (∀ k, key = some k → Units k)
  | .parseArrayValue es => ∀ e ∈ es, Value.Wf e

/-- The part of the scanner invariant that does not depend on the state. -/
structure Core (s : Scanner) : Prop where
  frames : ∀ f ∈ s.parseState, f.OK
  value : ∀ v, s.value = some v → v.Wf
  top : s.endTop = true → s.value.isSome = true

/-- The scanner invariant. -/
structure Inv (s : Scanner) : Prop where
  core : Core s
  lit : litOK s.step s.lit
  endValue : s.step = .stateEndValue → s.parseState = [] → s.value.isSome = true
  arr : s.step = .stateBeginValueOrEmpty → s.parseState ≠ []

end EncodingJSON

/-! ## Errors -/

/-- The kinds of error thrown by the two files. -/
inductive ErrKind where
  | InvalidArgument
  | Unimplemented
  | Internal
  deriving DecidableEq, Repr

/-- Error values.  `external` is an error made outside the two files (by the
query layer or the command layer), `json` an error of the JSON decoder;
`thrown` is an error
thrown through the repository's errors package with a nil parent, `wrapped`
one thrown around a parent error. -/
inductive Error where
  | external (description : String)
  | json (e : EncodingJSON.JSONError)
  | thrown (kind : ErrKind) (id : String) (message : String)
  | wrapped (kind : ErrKind) (parent : Error) (id : String) (message : String)
  deriving DecidableEq, Repr

/-- Modelled from the spec: the errors package is not among the sources; an
error made by it carries its kind (the taxonomy of section 7), the parent it
wraps (if any), the ID and the message. -/
def CreateCaosError (kind : ErrKind) (parent : Option Error) (id message : String) : Error :=
  match parent with
  | none => .thrown kind id message
  | some p => .wrapped kind p id message

/-- Modelled from the spec: the errors package is not among the sources.
`ThrowInvalidArgument(parent, id, message)`. -/
def ThrowInvalidArgument (parent : Option Error) (id message : String) : Error :=
  CreateCaosError .InvalidArgument parent id message

/-- Modelled from the spec: the errors package is not among the sources.
`ThrowUnimplementedf(parent, id, format, a...)`, the message being the format
applied to its arguments. -/
def ThrowUnimplementedf (parent : Option Error) (id message : String) : Error :=
  CreateCaosError .Unimplemented parent id message

/-- Modelled from the spec: the errors package is not among the sources.
`ThrowInternal(parent, id, message)`. -/
def ThrowInternal (parent : Option Error) (id message : String) : Error :=
  CreateCaosError .Internal parent id message

/-- The kind of an error, when it was thrown through the errors package. -/
def Error.kind? : Error → Option ErrKind
  | .external _ => none
  | .json _ => none
  | .thrown k _ _ => some k
  | .wrapped k _ _ _ => some k

/-- The parent an error wraps. -/
def Error.parent? : Error → Option Error
  | .wrapped _ p _ _ => some p
  | _ => none

/-- A Go result pair `(T, error)`. -/
abbrev Ret (α : Type) := Option α × Option Error

/-- The pair returned by a collaborator: the value with a nil error, or a nil
value with the error. -/
def Ret.ofExcept {α : Type} : Except Error α → Ret α
  | .ok a => (some a, none)
  | .error e => (none, some e)

namespace Session

/-! ## Data model of `session.go` -/

/-- An instant as `time.Time` holds it: seconds since January 1, year 1 UTC,
and nanoseconds within the second. -/
structure Time where
  sec : Int
  nsec : Nat
  deriving DecidableEq, Repr

/-- `Time.IsZero`: the zero instant, January 1, year 1, 00:00:00 UTC. -/
def Time.IsZero (t : Time) : Bool := t.sec == 0 && t.nsec == 0

/-- A protobuf timestamp: seconds since the Unix epoch and nanoseconds. -/
structure Timestamp where
  Seconds : Int
  Nanos : Nat
  deriving DecidableEq, Repr

/-- `timestamppb.New`: the same instant counted from the Unix epoch. -/
def timestamppbNew (t : Time) : Timestamp :=
  { Seconds := t.sec - 62135596800, Nanos := t.nsec }

/-- What `authz.GetCtxData` reads from a caller context. -/
structure CtxData where
  UserID : String
  OrgID : String
  deriving DecidableEq, Repr

/-- A caller context. -/
structure Context where
  ctxData : CtxData
  deriving DecidableEq, Repr

/-- `authz.GetCtxData`. -/
def GetCtxData (ctx : Context) : CtxData := ctx.ctxData

abbrev Metadata := List (String × List Nat)

/-- `session.IDsQuery`. -/
structure IDsQuery where
  Ids : List String
  deriving DecidableEq, Repr

/-- The values of the `query` oneof of `session.SearchQuery`: the IDs query,
or a wrapper of any other Go type. -/
inductive SearchQuery_Query where
  | IdsQuery (IdsQuery : IDsQuery)
  | other (goType : String)
  deriving DecidableEq, Repr

/-- `session.SearchQuery`; `Query` is `none` when no variant is set. -/
structure SearchQuery where
  Query : Option SearchQuery_Query
  deriving DecidableEq, Repr

/-- The values of the `search` oneof of `session.CheckUser`. -/
inductive CheckUser_Search where
  | UserId (UserId : String)
  | LoginName (LoginName : String)
  | other (goType : String)
  deriving DecidableEq, Repr

/-- `session.CheckUser`; `Search` is `none` when no variant is set. -/
structure CheckUser where
  Search : Option CheckUser_Search
  deriving DecidableEq, Repr

/-- `session.CheckPassword`. -/
structure CheckPassword where
  Password : String
  deriving DecidableEq, Repr

/-- `session.Checks`. -/
structure Checks where
  User : Option CheckUser
  Password : Option CheckPassword
  deriving DecidableEq, Repr

/-- `(*Checks).GetUser`, nil-safe. -/
def Checks.GetUser : Option Checks → Option CheckUser
  | none => none
  | some c => c.User

/-- `(*Checks).GetPassword`, nil-safe. -/
def Checks.GetPassword : Option Checks → Option CheckPassword
  | none => none
  | some c => c.Password

/-- `(*CheckUser).GetSearch`. -/
def CheckUser.GetSearch (u : CheckUser) : Option CheckUser_Search := u.Search

/-- `(*CheckPassword).GetPassword`. -/
def CheckPassword.GetPassword (p : CheckPassword) : String := p.Password

/-- `session.CreateSessionRequest`. -/
structure CreateSessionRequest where
  Checks : Option Checks
  Metadata : Metadata
  deriving DecidableEq, Repr

/-- `session.SetSessionRequest`. -/
structure SetSessionRequest where
  SessionId : String
  SessionToken : String
  Checks : Option Checks
  Metadata : Metadata
  deriving DecidableEq, Repr

/-- `session.ListSessionsRequest`, with the list query type left open. -/
structure ListSessionsRequest (LQ : Type) where
  Query : Option LQ
  Queries : List SearchQuery

/-- The field of `query.User` that the handlers read. -/
structure User where
  ID : String
  deriving DecidableEq, Repr

/-- `command.SessionCheck` as built by `command.CheckUser` and
`command.CheckPassword`. -/
inductive SessionCheck where
  | CheckUser (id : String)
  | CheckPassword (password : String)
  deriving DecidableEq, Repr

/-- `command.SessionChanged`. -/
structure SessionChanged (D : Type) where
  ObjectDetails : D
  ID : String
  NewToken : String

/-- `query.SearchRequest`. -/
structure SearchRequest where
  Offset : Nat
  Limit : Nat
  Asc : Bool
  deriving DecidableEq, Repr

/-- `query.SessionsSearchQueries`; a query slot is `none` while it holds the
nil interface value. -/
structure SessionsSearchQueries (Q : Type) where
  SearchRequest : SearchRequest
  Queries : List (Option Q)

/-- `session.CreateSessionResponse`. -/
structure CreateSessionResponse (P : Type) where
  Details : P
  SessionId : String
  SessionToken : String

/-- `session.SetSessionResponse`. -/
structure SetSessionResponse (P : Type) where
  Details : P
  SessionToken : String

/-- The collaborators of `session.go`: `Q` is `query.SearchQuery`, `LQ` the
list query message, `D` the domain object details and `P` their wire form. -/
structure Deps (Q LQ D P : Type) where
  NewSessionIDsSearchQuery : List String → Except Error Q
  NewSessionCreatorSearchQuery : String → Except Error Q
  NewUserLoginNamesSearchQuery : String → Except Error Q
  GetUserByID : Context → Bool → String → Bool → Except Error User
  GetUser : Context → Bool → Bool → Q → Except Error User
  CreateSession : Context → List SessionCheck → Metadata → Except Error (SessionChanged D)
  UpdateSession : Context → String → String → List SessionCheck → Metadata →
    Except Error (SessionChanged D)
  ListQueryToQuery : Option LQ → Nat × Nat × Bool
  DomainToDetailsPb : D → P

/-- A call made to the command layer. -/
inductive CommandCall where
  | CreateSession (checks : List SessionCheck) (metadata : Metadata)
  | UpdateSession (sessionID sessionToken : String) (checks : List SessionCheck)
      (metadata : Metadata)
  deriving DecidableEq, Repr

/-- What a handler leaves behind: the response, the error, and the calls it
made to the command layer, in order. -/
structure Outcome (α : Type) where
  resp : Option α
  err : Option Error
  calls : List CommandCall

/-- `query.SessionUserFactor`. -/
structure SessionUserFactor where
  UserID : String
  UserCheckedAt : Time
  LoginName : String
  DisplayName : String
  deriving DecidableEq, Repr

/-- `query.SessionPasswordFactor`. -/
structure SessionPasswordFactor where
  PasswordCheckedAt : Time
  deriving DecidableEq, Repr

/-- `query.Session`, the read model of a session. -/
structure QuerySession where
  ID : String
  CreationDate : Time
  ChangeDate : Time
  Sequence : Nat
  UserFactor : SessionUserFactor
  PasswordFactor : SessionPasswordFactor
  Metadata : Metadata
  deriving DecidableEq, Repr

/-- `session.UserFactor`. -/
structure UserFactor where
  VerifiedAt : Timestamp
  Id : String
  LoginName : String
  DisplayName : String
  deriving DecidableEq, Repr

/-- `session.PasswordFactor`. -/
structure PasswordFactor where
  VerifiedAt : Timestamp
  deriving DecidableEq, Repr

/-- `session.Factors`. -/
structure Factors where
  User : Option UserFactor
  Password : Option PasswordFactor
  deriving DecidableEq, Repr

/-- `session.Session`, the wire form of a session. -/
structure PbSession where
  Id : String
  CreationDate : Timestamp
  ChangeDate : Timestamp
  Sequence : Nat
  Factors : Option Factors
  Metadata : Metadata
  deriving DecidableEq, Repr

/-! ## The functions of `session.go` -/

/-- `passwordFactorToPb`. -/
def passwordFactorToPb (factor : SessionPasswordFactor) : Option PasswordFactor :=
  if factor.PasswordCheckedAt.IsZero then
    none
  else
    some { VerifiedAt := timestamppbNew factor.PasswordCheckedAt }

/-- `userFactorToPb`. -/
def userFactorToPb (factor : SessionUserFactor) : Option UserFactor :=
  if factor.UserID == "" || factor.UserCheckedAt.IsZero then
    none
  else
    some
      { VerifiedAt := timestamppbNew factor.UserCheckedAt
        Id := factor.UserID
        LoginName := factor.LoginName
        DisplayName := factor.DisplayName }

/-- `factorsToPb`. -/
def factorsToPb (s : QuerySession) : Option Factors :=
  let user := userFactorToPb s.UserFactor
  let pw := passwordFactorToPb s.PasswordFactor
  if user.isNone && pw.isNone then
    none
  else
    some { User := user, Password := pw }

/-- `sessionToPb`. -/
def sessionToPb (s : QuerySession) : PbSession :=
  { Id := s.ID
    CreationDate := timestamppbNew s.CreationDate
    ChangeDate := timestamppbNew s.ChangeDate
    Sequence := s.Sequence
    Factors := factorsToPb s
    Metadata := s.Metadata }

/-- `sessionsToPb`. -/
def sessionsToPb (sessions : List QuerySession) : List PbSession :=
  sessions.map sessionToPb

section
variable {Q LQ D P : Type}

/-- `idsQueryToQuery`. -/
def idsQueryToQuery (deps : Deps Q LQ D P) (q : IDsQuery) : Ret Q :=
  Ret.ofExcept (deps.NewSessionIDsSearchQuery q.Ids)

/-- `sessionQueryToQuery`: a type switch on the oneof of the search query. -/
def sessionQueryToQuery (deps : Deps Q LQ D P) (query : SearchQuery) : Ret Q :=
  match query.Query with
  | some (.IdsQuery q) => idsQueryToQuery deps q
  | _ => (none, some (ThrowInvalidArgument none "GRPC-Sfefs" "List.Query.Invalid"))

/-- The `for i, query := range queries` loop of `sessionQueriesToQuery`,
entered at index `i` with the slice `q` as written so far: each conversion is
stored at `q[i]`, and the first error ends the loop. -/
def sessionQueriesToQuery.loop (deps : Deps Q LQ D P) :
    List SearchQuery → Nat → List (Option Q) → Except Error (List (Option Q))
  | [], _, q => .ok q
  | query :: rest, i, q =>
    match sessionQueryToQuery deps query with
    | (_, some err) => .error err
    | (v, none) => sessionQueriesToQuery.loop deps rest (i + 1) (q.set i v)

/-- `sessionQueriesToQuery`: a slice of `len(queries)+1` nil entries is filled
by the loop, then the creator query is stored at index `len(queries)`. -/
def sessionQueriesToQuery (deps : Deps Q LQ D P) (ctx : Context)
    (queries : List SearchQuery) : Ret (List (Option Q)) :=
  let q : List (Option Q) := List.replicate (queries.length + 1) none
  match sessionQueriesToQuery.loop deps queries 0 q with
  | .error err => (none, some err)
  | .ok q =>
    match deps.NewSessionCreatorSearchQuery (GetCtxData ctx).UserID with
    | .error err => (none, some err)
    | .ok creatorQuery => (some (q.set queries.length (some creatorQuery)), none)

/-- `listSessionsRequestToQuery`. -/
def listSessionsRequestToQuery (deps : Deps Q LQ D P) (ctx : Context)
    (req : ListSessionsRequest LQ) : Ret (SessionsSearchQueries Q) :=
  let (offset, limit, asc) := deps.ListQueryToQuery req.Query
  match sessionQueriesToQuery deps ctx req.Queries with
  | (_, some err) => (none, some err)
  | (queries, none) =>
    (some
      { SearchRequest := { Offset := offset, Limit := limit, Asc := asc }
        Queries := queries.getD [] }, none)

/-- The two implementations of the `userSearch` interface. -/
inductive userSearch (Q : Type) where
  | userSearchByID (id : String)
  | userSearchByLoginName (loginNameQuery : Q)
  deriving DecidableEq, Repr

/-- The `search` method of the two `userSearch` implementations. -/
def userSearch.search (deps : Deps Q LQ D P) (ctx : Context) : userSearch Q → Except Error User
  | .userSearchByID id => deps.GetUserByID ctx true id false
  | .userSearchByLoginName loginNameQuery => deps.GetUser ctx true false loginNameQuery

/-- `userByID`. -/
def userByID (userID : String) : userSearch Q := .userSearchByID userID

/-- `userByLoginName`. -/
def userByLoginName (deps : Deps Q LQ D P) (loginName : String) : Ret (userSearch Q) :=
  match deps.NewUserLoginNamesSearchQuery loginName with
  | .error err => (none, some err)
  | .ok loginNameQuery => (some (.userSearchByLoginName loginNameQuery), none)

/-- What the verb `%T` prints for the value of the `search` oneof. -/
def searchTypeName : Option CheckUser_Search → String
  | none => "<nil>"
  | some (.UserId _) => "*session.CheckUser_UserId"
  | some (.LoginName _) => "*session.CheckUser_LoginName"
  | some (.other goType) => goType

/-- `userCheck`: a type switch on the oneof of a present user check. -/
def userCheck (deps : Deps Q LQ D P) (user : Option CheckUser) : Ret (userSearch Q) :=
  match user with
  | none => (none, none)
  | some user =>
    match user.GetSearch with
    | some (.UserId userId) => (some (userByID userId), none)
    | some (.LoginName loginName) => userByLoginName deps loginName
    | s => (none, some (ThrowUnimplementedf none "SESSION-d3b4g0"
        ("user search " ++ searchTypeName s ++ " not implemented")))

/-- The `if checkUser != nil` block of `checksToCommand`: the user is looked
up and the user check is appended, or the lookup error is returned. -/
def checksToCommand.user (deps : Deps Q LQ D P) (ctx : Context)
    (checkUser : Option (userSearch Q)) (sessionChecks : List SessionCheck) :
    Except Error (List SessionCheck) :=
  match checkUser with
  | some checkUser =>
    match checkUser.search deps ctx with
    | .error err => .error err
    | .ok user => .ok (sessionChecks ++ [SessionCheck.CheckUser user.ID])
  | none => .ok sessionChecks

/-- `Server.checksToCommand`. -/
def checksToCommand (deps : Deps Q LQ D P) (ctx : Context) (checks : Option Checks) :
    Ret (List SessionCheck) :=
  match userCheck deps (Checks.GetUser checks) with
  | (_, some err) => (none, some err)
  | (checkUser, none) =>
    match checksToCommand.user deps ctx checkUser [] with
    | .error err => (none, some err)
    | .ok sessionChecks =>
      match Checks.GetPassword checks with
      | some password =>
        (some (sessionChecks ++ [SessionCheck.CheckPassword password.GetPassword]), none)
      | none => (some sessionChecks, none)

/-- `Server.createSessionRequestToCommand`: the checks, the metadata and the
error. -/
def createSessionRequestToCommand (deps : Deps Q LQ D P) (ctx : Context)
    (req : CreateSessionRequest) : Option (List SessionCheck) × Option Metadata × Option Error :=
  match checksToCommand deps ctx req.Checks with
  | (_, some err) => (none, none, some err)
  | (checks, none) => (checks, some req.Metadata, none)

/-- `Server.setSessionRequestToCommand`. -/
def setSessionRequestToCommand (deps : Deps Q LQ D P) (ctx : Context)
    (req : SetSessionRequest) : Ret (List SessionCheck) :=
  match checksToCommand deps ctx req.Checks with
  | (_, some err) => (none, some err)
  | (checks, none) => (checks, none)

/-- `Server.CreateSession`. -/
def CreateSession (deps : Deps Q LQ D P) (ctx : Context) (req : CreateSessionRequest) :
    Outcome (CreateSessionResponse P) :=
  match createSessionRequestToCommand deps ctx req with
  | (_, _, some err) => { resp := none, err := some err, calls := [] }
  | (checks, metadata, none) =>
    let call := CommandCall.CreateSession (checks.getD []) (metadata.getD [])
    match deps.CreateSession ctx (checks.getD []) (metadata.getD []) with
    | .error err => { resp := none, err := some err, calls := [call] }
    | .ok set =>
      { resp := some
          { Details := deps.DomainToDetailsPb set.ObjectDetails
            SessionId := set.ID
            SessionToken := set.NewToken }
        err := none
        calls := [call] }

/-- `Server.SetSession`. -/
def SetSession (deps : Deps Q LQ D P) (ctx : Context) (req : SetSessionRequest) :
    Outcome (SetSessionResponse P) :=
  match setSessionRequestToCommand deps ctx req with
  | (_, some err) => { resp := none, err := some err, calls := [] }
  | (checks, none) =>
    let call := CommandCall.UpdateSession req.SessionId req.SessionToken (checks.getD [])
      req.Metadata
    match deps.UpdateSession ctx req.SessionId req.SessionToken (checks.getD []) req.Metadata with
    | .error err => { resp := none, err := some err, calls := [call] }
    | .ok set =>
      -- if there's no new token, just return the current
      let set := if set.NewToken == "" then { set with NewToken := req.SessionToken } else set
      { resp := some
          { Details := deps.DomainToDetailsPb set.ObjectDetails
            SessionToken := set.NewToken }
        err := none
        calls := [call] }

end

end Session

namespace Org

open EncodingJSON

/-! ## Data model of `domain.go` -/

/-- Modelled from the spec: `repository.Event` is not among the sources; a
stored event has the attributes of section 3, the payload being the bytes the
mappers read as `event.Data`. -/
structure Event where
  aggregateID : String
  aggregateType : String
  eventType : String
  schemaVersion : String
  sequence : Nat
  createdAt : Nat
  editorID : String
  editorContext : String
  Data : String
  deriving DecidableEq, Repr

/-- Modelled from the spec: `eventstore.BaseEvent` is not among the sources;
the envelope of an event, that is its attributes other than the payload. -/
structure BaseEvent where
  aggregateID : String
  aggregateType : String
  eventType : String
  schemaVersion : String
  sequence : Nat
  createdAt : Nat
  editorID : String
  editorContext : String
  deriving DecidableEq, Repr

/-- Modelled from the spec: `eventstore.BaseEventFromRepo` is not among the
sources; the envelope is taken from the stored event. -/
def BaseEventFromRepo (event : Event) : BaseEvent :=
  { aggregateID := event.aggregateID
    aggregateType := event.aggregateType
    eventType := event.eventType
    schemaVersion := event.schemaVersion
    sequence := event.sequence
    createdAt := event.createdAt
    editorID := event.editorID
    editorContext := event.editorContext }

/-- `DomainAddedEvent`. -/
structure DomainAddedEvent where
  BaseEvent : BaseEvent
  Domain : String
  deriving DecidableEq, Repr

/-- `DomainVerificationAddedEvent`; `VT` is `domain.OrgDomainValidationType`
and `CV` is `crypto.CryptoValue`, both declared outside the file. -/
structure DomainVerificationAddedEvent (VT CV : Type) where
  BaseEvent : BaseEvent
  Domain : String
  ValidationType : VT
  ValidationCode : Option CV

/-- `DomainVerificationFailedEvent`. -/
structure DomainVerificationFailedEvent where
  BaseEvent : BaseEvent
  Domain : String
  deriving DecidableEq, Repr

/-- `DomainVerifiedEvent`. -/
structure DomainVerifiedEvent where
  BaseEvent : BaseEvent
  Domain : String
  deriving DecidableEq, Repr

/-- `DomainPrimarySetEvent`. -/
structure DomainPrimarySetEvent where
  BaseEvent : BaseEvent
  Domain : String
  deriving DecidableEq, Repr

/-- `DomainRemovedEvent`. -/
structure DomainRemovedEvent where
  BaseEvent : BaseEvent
  Domain : String
  deriving DecidableEq, Repr

/-- How the decoder treats the two types declared outside the file: the zero
value of the validation type and the store of a JSON value into a validation
type and into a crypto value. -/
structure Codecs (VT CV : Type) where
  zeroValidationType : VT
  storeValidationType : Value → VT → VT × Option JSONError
  zeroCryptoValue : CV
  storeCryptoValue : Value → CV → CV × Option JSONError

/-! ## The fields the decoder sees

The embedded `BaseEvent` carries the tag `json:"-"` and is no field for the
decoder. -/

/-- The JSON fields of `DomainAddedEvent`. -/
def DomainAddedEvent.fields : List (StructField DomainAddedEvent) :=
  [{ name := "domain".toList
     store := fun v e => let r := storeString v e.Domain; ({ e with Domain := r.1 }, r.2) }]

/-- The JSON fields of `DomainVerificationAddedEvent`. -/
def DomainVerificationAddedEvent.fields {VT CV : Type} (codecs : Codecs VT CV) :
    List (StructField (DomainVerificationAddedEvent VT CV)) :=
  [{ name := "domain".toList
     store := fun v e => let r := storeString v e.Domain; ({ e with Domain := r.1 }, r.2) },
   { name := "validationType".toList
     store := fun v e =>
       let r := codecs.storeValidationType v e.ValidationType
       ({ e with ValidationType := r.1 }, r.2) },
   { name := "validationCode".toList
     store := fun v e =>
       let r := storePtr codecs.zeroCryptoValue codecs.storeCryptoValue v e.ValidationCode
       ({ e with ValidationCode := r.1 }, r.2) }]

/-- The JSON fields of `DomainVerificationFailedEvent`. -/
def DomainVerificationFailedEvent.fields : List (StructField DomainVerificationFailedEvent) :=
  [{ name := "domain".toList
     store := fun v e => let r := storeString v e.Domain; ({ e with Domain := r.1 }, r.2) }]

/-- The JSON fields of `DomainVerifiedEvent`. -/
def DomainVerifiedEvent.fields : List (StructField DomainVerifiedEvent) :=
  [{ name := "domain".toList
     store := fun v e => let r := storeString v e.Domain; ({ e with Domain := r.1 }, r.2) }]

/-- The JSON fields of `DomainPrimarySetEvent`. -/
def DomainPrimarySetEvent.fields : List (StructField DomainPrimarySetEvent) :=
  [{ name := "domain".toList
     store := fun v e => let r := storeString v e.Domain; ({ e with Domain := r.1 }, r.2) }]

/-- The JSON fields of `DomainRemovedEvent`. -/
def DomainRemovedEvent.fields : List (StructField DomainRemovedEvent) :=
  [{ name := "domain".toList
     store := fun v e => let r := storeString v e.Domain; ({ e with Domain := r.1 }, r.2) }]

/-! ## The mappers of `domain.go` -/

/-- `DomainAddedEventMapper`. -/
def DomainAddedEventMapper (event : Event) : Ret DomainAddedEvent :=
  let orgDomainAdded : DomainAddedEvent :=
    { BaseEvent := BaseEventFromRepo event, Domain := "" }
  match Unmarshal DomainAddedEvent.fields event.Data.toList orgDomainAdded with
  | (_, some err) =>
    (none, some (ThrowInternal (some (.json err)) "ORG-GBr52"
      "unable to unmarshal org domain added"))
  | (orgDomainAdded, none) => (some orgDomainAdded, none)

/-- `DomainVerificationAddedEventMapper`. -/
def DomainVerificationAddedEventMapper {VT CV : Type} (codecs : Codecs VT CV) (event : Event) :
    Ret (DomainVerificationAddedEvent VT CV) :=
  let orgDomainVerificationAdded : DomainVerificationAddedEvent VT CV :=
    { BaseEvent := BaseEventFromRepo event, Domain := ""
      ValidationType := codecs.zeroValidationType, ValidationCode := none }
  match Unmarshal (DomainVerificationAddedEvent.fields codecs) event.Data.toList
      orgDomainVerificationAdded with
  | (_, some err) =>
    (none, some (ThrowInternal (some (.json err)) "ORG-NRN32"
      "unable to unmarshal org domain verification added"))
  | (orgDomainVerificationAdded, none) => (some orgDomainVerificationAdded, none)

/-- `DomainVerificationFailedEventMapper`. -/
def DomainVerificationFailedEventMapper (event : Event) : Ret DomainVerificationFailedEvent :=
  let orgDomainVerificationFailed : DomainVerificationFailedEvent :=
    { BaseEvent := BaseEventFromRepo event, Domain := "" }
  match Unmarshal DomainVerificationFailedEvent.fields event.Data.toList
      orgDomainVerificationFailed with
  | (_, some err) =>
    (none, some (ThrowInternal (some (.json err)) "ORG-Bhm37"
      "unable to unmarshal org domain verification failed"))
  | (orgDomainVerificationFailed, none) => (some orgDomainVerificationFailed, none)

/-- `DomainVerifiedEventMapper`. -/
def DomainVerifiedEventMapper (event : Event) : Ret DomainVerifiedEvent :=
  let orgDomainVerified : DomainVerifiedEvent :=
    { BaseEvent := BaseEventFromRepo event, Domain := "" }
  match Unmarshal DomainVerifiedEvent.fields event.Data.toList orgDomainVerified with
  | (_, some err) =>
    (none, some (ThrowInternal (some (.json err)) "ORG-BFSwt"
      "unable to unmarshal org domain verified"))
  | (orgDomainVerified, none) => (some orgDomainVerified, none)

/-- `DomainPrimarySetEventMapper`. -/
def DomainPrimarySetEventMapper (event : Event) : Ret DomainPrimarySetEvent :=
  let orgDomainPrimarySet : DomainPrimarySetEvent :=
    { BaseEvent := BaseEventFromRepo event, Domain := "" }
  match Unmarshal DomainPrimarySetEvent.fields event.Data.toList orgDomainPrimarySet with
  | (_, some err) =>
    (none, some (ThrowInternal (some (.json err)) "ORG-N5787"
      "unable to unmarshal org domain primary set"))
  | (orgDomainPrimarySet, none) => (some orgDomainPrimarySet, none)

/-- `DomainRemovedEventMapper`. -/
def DomainRemovedEventMapper (event : Event) : Ret DomainRemovedEvent :=
  let orgDomainRemoved : DomainRemovedEvent :=
    { BaseEvent := BaseEventFromRepo event, Domain := "" }
  match Unmarshal DomainRemovedEvent.fields event.Data.toList orgDomainRemoved with
  | (_, some err) =>
    (none, some (ThrowInternal (some (.json err)) "ORG-BngB2"
      "unable to unmarshal org domain removed"))
  | (orgDomainRemoved, none) => (some orgDomainRemoved, none)

/-! ## Sample events -/

/-- A sample treatment of the two types declared outside the file: the
validation type is a 32-bit integer and a crypto value is kept as it is. -/
def sampleCodecs : Codecs Int Unit where
  zeroValidationType := 0
  storeValidationType := storeInt 32
  zeroCryptoValue := ()
  storeCryptoValue := fun _ cv => (cv, none)

/-- A stored event with the given payload. -/
def sampleEvent (data : String) : Event :=
  { aggregateID := "org1", aggregateType := "org", eventType := "org.domain.added"
    schemaVersion := "v1", sequence := 7, createdAt := 1600000000
    editorID := "user1", editorContext := "management-api", Data := data }

/-- A payload with the key `domain` between two unknown keys, one of them with
a nested value. -/
def payloadWithUnknown : String :=
  "\x7b\"extra\":[1,\x7b\"a\":null\x7d],\"domain\":\"zitadel.ch\",\"more\":true\x7d"

/-- The payload `payloadWithUnknown` without its unknown keys. -/
def payloadKnown : String := "\x7b\"domain\":\"zitadel.ch\"\x7d"

/-- What a mapper does with the result `r` of `json.Unmarshal`: it returns an
error exactly when the decoder does, then the Internal error with the given ID
and message around the error of the decoder and no event, and otherwise the
decoded event and no error. -/
def SurfacesDecodeError {σ : Type} (mapped : Ret σ) (r : σ × Option JSONError)
    (id message : String) : Prop :=
  (mapped.2.isSome = true ↔ r.2.isSome = true) ∧
  (∀ e, r.2 = some e →
    mapped = (none, some (ThrowInternal (some (.json e)) id message)) ∧
    (ThrowInternal (some (.json e)) id message).kind? = some ErrKind.Internal ∧
    (ThrowInternal (some (.json e)) id message).parent? = some (.json e)) ∧
  (r.2 = none → mapped = (some r.1, none))

end Org

/-! ## Sample collaborators and inputs -/

namespace Session

/-- The queries of the sample query layer. -/
inductive SampleQuery where
  | ids (ids : List String)
  | creator (userID : String)
  | loginName (loginName : String)
  deriving DecidableEq, Repr

/-- A sample query layer and command layer: an IDs query needs at least one
ID and a login-name query a non-empty name; the only user is `u1`, whose login
name is `alice`; the command layer mints the token `t1` for a new session and
no token for an update. -/
def sampleDeps : Deps SampleQuery Unit Nat Nat where
  NewSessionIDsSearchQuery ids :=
    if ids.isEmpty then .error (.external "nothing selected") else .ok (.ids ids)
  NewSessionCreatorSearchQuery userID := .ok (.creator userID)
  NewUserLoginNamesSearchQuery loginName :=
    if loginName.isEmpty then .error (.external "empty login name") else .ok (.loginName loginName)
  GetUserByID _ _ id _ :=
    if id == "u1" then .ok { ID := "u1" } else .error (.external "user not found")
  GetUser _ _ _ q :=
    if q == .loginName "alice" then .ok { ID := "u1" } else .error (.external "user not found")
  CreateSession _ _ _ := .ok { ObjectDetails := 1, ID := "s1", NewToken := "t1" }
  UpdateSession _ sessionID _ _ _ := .ok { ObjectDetails := 2, ID := sessionID, NewToken := "" }
  ListQueryToQuery _ := (0, 0, false)
  DomainToDetailsPb d := d

/-- A sample caller. -/
def sampleCtx : Context := { ctxData := { UserID := "caller", OrgID := "org" } }

/-- Two search queries that convert. -/
def sampleQueries : List SearchQuery :=
  [{ Query := some (.IdsQuery { Ids := ["s1"] }) },
   { Query := some (.IdsQuery { Ids := ["s2", "s3"] }) }]

end Session

/-! ## Properties of `session.go` -/

namespace Session

section
variable {Q LQ D P : Type}

/-- Writing at the first index past a prefix replaces the element there. -/
theorem set_append_cons {α : Type} (pre : List α) (x v : α) (tl : List α) :
    (pre ++ x :: tl).set pre.length v = pre ++ v :: tl := by
  induction pre with
  | nil => rfl
  | cons a pre ih => simp [List.set, ih]

/-- When every conversion succeeds, the loop of `sessionQueriesToQuery` fills
the slots after the prefix already written with the conversions, in order, and
leaves the slots behind them as they were. -/
theorem loop_ok (deps : Deps Q LQ D P) (queries : List SearchQuery)
    (hconv : ∀ query ∈ queries, (sessionQueryToQuery deps query).2 = none)
    (pre : List (Option Q)) (k : Nat) :
    sessionQueriesToQuery.loop deps queries pre.length
        (pre ++ List.replicate (queries.length + k) none)
      = .ok (pre ++ queries.map (fun query => (sessionQueryToQuery deps query).1)
          ++ List.replicate k none) := by
  induction queries generalizing pre with
  | nil => simp [sessionQueriesToQuery.loop]
  | cons query rest ih =>
    have hq : (sessionQueryToQuery deps query).2 = none := hconv query (by simp)
    have hrest : ∀ query ∈ rest, (sessionQueryToQuery deps query).2 = none :=
      fun q hqm => hconv q (by simp [hqm])
    rcases hres : sessionQueryToQuery deps query with ⟨v, e⟩
    rw [hres] at hq
    simp only at hq
    subst hq
    have hlen : (query :: rest).length + k = (rest.length + k) + 1 := by
      simp only [List.length_cons]; omega
    rw [hlen, List.replicate_succ]
    simp only [sessionQueriesToQuery.loop, hres, set_append_cons]
    have := ih hrest (pre ++ [v])
    simp only [List.length_append, List.length_singleton, List.append_assoc,
      List.singleton_append] at this
    rw [this]
    simp [hres]

/-- The loop of `sessionQueriesToQuery` ends with the error of the first
conversion that fails. -/
theorem loop_error (deps : Deps Q LQ D P) (pre : List SearchQuery) (bad : SearchQuery)
    (post : List SearchQuery) (e : Error)
    (hpre : ∀ query ∈ pre, (sessionQueryToQuery deps query).2 = none)
    (hbad : (sessionQueryToQuery deps bad).2 = some e) (i : Nat) (q : List (Option Q)) :
    sessionQueriesToQuery.loop deps (pre ++ bad :: post) i q = .error e := by
  induction pre generalizing i q with
  | nil =>
    rcases hres : sessionQueryToQuery deps bad with ⟨v, e2⟩
    rw [hres] at hbad
    simp only at hbad
    subst hbad
    simp [sessionQueriesToQuery.loop, hres]
  | cons query rest ih =>
    have hq : (sessionQueryToQuery deps query).2 = none := hpre query (by simp)
    rcases hres : sessionQueryToQuery deps query with ⟨v, e2⟩
    rw [hres] at hq
    simp only at hq
    subst hq
    simp only [List.cons_append, sessionQueriesToQuery.loop, hres]
    exact ih (fun q hqm => hpre q (by simp [hqm])) _ _

/-- C1: for every caller context and every list of search queries whose
conversions all succeed and for which the creator query can be built,
`sessionQueriesToQuery` returns no error and a list that holds the conversions
of the queries in their order followed by the creator query built from the
user ID of the caller: it has one entry more than the queries, entry `i` is
the conversion of query `i`, and the last entry is the creator query. -/
theorem sessionQueriesToQuery_appends_creator (deps : Deps Q LQ D P) (ctx : Context)
    (queries : List SearchQuery) (creatorQuery : Q)
    (hconv : ∀ query ∈ queries, (sessionQueryToQuery deps query).2 = none)
    (hcreator : deps.NewSessionCreatorSearchQuery (GetCtxData ctx).UserID = .ok creatorQuery) :
    ∃ q : List (Option Q),
      sessionQueriesToQuery deps ctx queries = (some q, none) ∧
      q = queries.map (fun query => (sessionQueryToQuery deps query).1) ++ [some creatorQuery] ∧
      q.length = queries.length + 1 ∧
      (∀ i (h : i < queries.length), q[i]? = some (sessionQueryToQuery deps queries[i]).1) ∧
      q[queries.length]? = some (some creatorQuery) := by
  have hloop := loop_ok deps queries hconv [] 1
  simp only [List.length_nil, List.nil_append] at hloop
  refine ⟨queries.map (fun query => (sessionQueryToQuery deps query).1) ++ [some creatorQuery],
    ?_, rfl, by simp, ?_, ?_⟩
  · simp only [sessionQueriesToQuery, hloop, hcreator]
    have h := set_append_cons (queries.map (fun query => (sessionQueryToQuery deps query).1))
      (none : Option Q) (some creatorQuery) []
    simp only [List.length_map] at h
    simp [h]
  · intro i h
    rw [List.getElem?_append_left (by simpa using h)]
    simp [h]
  · rw [List.getElem?_append_right (by simp)]
    simp

/-- A witness of C1: the two sample queries of the sample caller. -/
theorem sessionQueriesToQuery_appends_creator_witness :
    (∀ query ∈ sampleQueries, (sessionQueryToQuery sampleDeps query).2 = none) ∧
    sampleDeps.NewSessionCreatorSearchQuery (GetCtxData sampleCtx).UserID
      = .ok (.creator "caller") ∧
    ∃ q : List (Option SampleQuery),
      sessionQueriesToQuery sampleDeps sampleCtx sampleQueries = (some q, none) ∧
      q = sampleQueries.map (fun query => (sessionQueryToQuery sampleDeps query).1)
        ++ [some (.creator "caller")] ∧
      q.length = sampleQueries.length + 1 ∧
      (∀ i (h : i < sampleQueries.length),
        q[i]? = some (sessionQueryToQuery sampleDeps sampleQueries[i]).1) ∧
      q[sampleQueries.length]? = some (some (.creator "caller")) :=
  ⟨by decide, rfl,
    sessionQueriesToQuery_appends_creator sampleDeps sampleCtx sampleQueries (.creator "caller")
      (by decide) rfl⟩

/-- C3: `sessionQueryToQuery` returns no query and an InvalidArgument error
for a search query with no variant set and for one of any variant other than
the IDs query; and for every list in which some element fails to convert,
whatever precedes and follows the first such element, `sessionQueriesToQuery`
returns no queries and the error of that element. -/
theorem sessionQueriesToQuery_first_error (deps : Deps Q LQ D P) (ctx : Context)
    (pre : List SearchQuery) (bad : SearchQuery) (post : List SearchQuery) (e : Error)
    (hpre : ∀ query ∈ pre, (sessionQueryToQuery deps query).2 = none)
    (hbad : (sessionQueryToQuery deps bad).2 = some e) :
    sessionQueriesToQuery deps ctx (pre ++ bad :: post) = (none, some e) ∧
    sessionQueryToQuery deps { Query := none }
      = (none, some (ThrowInvalidArgument none "GRPC-Sfefs" "List.Query.Invalid")) ∧
    (∀ goType, sessionQueryToQuery deps { Query := some (.other goType) }
      = (none, some (ThrowInvalidArgument none "GRPC-Sfefs" "List.Query.Invalid"))) ∧
    (ThrowInvalidArgument none "GRPC-Sfefs" "List.Query.Invalid").kind?
      = some ErrKind.InvalidArgument := by
  refine ⟨?_, rfl, fun _ => rfl, rfl⟩
  simp only [sessionQueriesToQuery, loop_error deps pre bad post e hpre hbad]

/-- A witness of C3: a query with no variant set after the two sample
queries and before another one. -/
theorem sessionQueriesToQuery_first_error_witness :
    sessionQueriesToQuery sampleDeps sampleCtx
        (sampleQueries ++ { Query := none } :: [{ Query := some (.IdsQuery { Ids := [] }) }])
      = (none, some (ThrowInvalidArgument none "GRPC-Sfefs" "List.Query.Invalid")) :=
  (sessionQueriesToQuery_first_error sampleDeps sampleCtx sampleQueries { Query := none }
    [{ Query := some (.IdsQuery { Ids := [] }) }]
    (ThrowInvalidArgument none "GRPC-Sfefs" "List.Query.Invalid") (by decide) rfl).1

/-- C4: `userCheck` returns no strategy and no error for an absent user
check; the by-ID strategy with the given ID and no error for the UserId
variant; for the LoginName variant the by-login-name strategy with the query
built from the name when that query can be built, and no strategy and the
error of the construction when it cannot; and no strategy and an Unimplemented
error for a present user check with no variant set or with any other
variant. -/
theorem userCheck_dispatch (deps : Deps Q LQ D P) :
    userCheck deps none = (none, none) ∧
    (∀ userId, userCheck deps (some { Search := some (.UserId userId) })
      = (some (.userSearchByID userId), none)) ∧
    (∀ loginName loginNameQuery,
      deps.NewUserLoginNamesSearchQuery loginName = .ok loginNameQuery →
      userCheck deps (some { Search := some (.LoginName loginName) })
        = (some (.userSearchByLoginName loginNameQuery), none)) ∧
    (∀ loginName err, deps.NewUserLoginNamesSearchQuery loginName = .error err →
      userCheck deps (some { Search := some (.LoginName loginName) }) = (none, some err)) ∧
    (∀ loginName,
      (∃ loginNameQuery, (userCheck deps (some { Search := some (.LoginName loginName) })).1
        = some (.userSearchByLoginName loginNameQuery)) ↔
      ∃ loginNameQuery, deps.NewUserLoginNamesSearchQuery loginName = .ok loginNameQuery) ∧
    (∃ err, userCheck deps (some { Search := none }) = (none, some err) ∧
      err.kind? = some ErrKind.Unimplemented) ∧
    (∀ goType, ∃ err,
      userCheck deps (some { Search := some (.other goType) }) = (none, some err) ∧
      err.kind? = some ErrKind.Unimplemented) := by
  refine ⟨rfl, fun _ => rfl, ?_, ?_, ?_, ⟨_, rfl, rfl⟩, fun _ => ⟨_, rfl, rfl⟩⟩
  · intro loginName loginNameQuery h
    simp [userCheck, CheckUser.GetSearch, userByLoginName, h]
  · intro loginName err h
    simp [userCheck, CheckUser.GetSearch, userByLoginName, h]
  · intro loginName
    cases h : deps.NewUserLoginNamesSearchQuery loginName with
    | error err => simp [userCheck, CheckUser.GetSearch, userByLoginName, h]
    | ok q => simp [userCheck, CheckUser.GetSearch, userByLoginName, h]

/-- A conversion of checks that fails makes `createSessionRequestToCommand`
and `setSessionRequestToCommand` fail with the same error. -/
theorem requestToCommand_error (deps : Deps Q LQ D P) (ctx : Context) (checks : Option Checks)
    (metadata : Metadata) (sessionID sessionToken : String) (e : Error)
    (h : (checksToCommand deps ctx checks).2 = some e) :
    createSessionRequestToCommand deps ctx { Checks := checks, Metadata := metadata }
      = (none, none, some e) ∧
    setSessionRequestToCommand deps ctx
      { SessionId := sessionID, SessionToken := sessionToken, Checks := checks,
        Metadata := metadata } = (none, some e) := by
  rcases hres : checksToCommand deps ctx checks with ⟨l, e2⟩
  rw [hres] at h
  simp only at h
  subst h
  simp [createSessionRequestToCommand, setSessionRequestToCommand, hres]

/-- C5: when the conversion of the checks of a CreateSession request fails
with an error, `CreateSession` returns that error with no response and makes
no call to the command layer, and likewise `SetSession` for a SetSession
request; the conversion fails, whether or not the request carries a password
check, when the user search has an unsupported variant, when the login-name
query cannot be built and when the user lookup returns an error. -/
theorem handlers_fail_fast (deps : Deps Q LQ D P) (ctx : Context)
    (createReq : CreateSessionRequest) (setReq : SetSessionRequest) (e1 e2 : Error)
    (hcreate : (checksToCommand deps ctx createReq.Checks).2 = some e1)
    (hset : (checksToCommand deps ctx setReq.Checks).2 = some e2) :
    (CreateSession deps ctx createReq).resp = none ∧
    (CreateSession deps ctx createReq).err = some e1 ∧
    (CreateSession deps ctx createReq).calls = [] ∧
    (SetSession deps ctx setReq).resp = none ∧
    (SetSession deps ctx setReq).err = some e2 ∧
    (SetSession deps ctx setReq).calls = [] ∧
    (∀ user password e, (userCheck deps (some user)).2 = some e →
      checksToCommand deps ctx (some { User := some user, Password := password })
        = (none, some e)) ∧
    (∀ user password search e, userCheck deps (some user) = (some search, none) →
      search.search deps ctx = .error e →
      checksToCommand deps ctx (some { User := some user, Password := password })
        = (none, some e)) := by
  have h1 := (requestToCommand_error deps ctx createReq.Checks createReq.Metadata "" "" e1
    hcreate).1
  have h2 := (requestToCommand_error deps ctx setReq.Checks setReq.Metadata setReq.SessionId
    setReq.SessionToken e2 hset).2
  refine ⟨?_, ?_, ?_, ?_, ?_, ?_, ?_, ?_⟩
  · simp only [CreateSession, h1]
  · simp only [CreateSession, h1]
  · simp only [CreateSession, h1]
  · simp only [SetSession, h2]
  · simp only [SetSession, h2]
  · simp only [SetSession, h2]
  · intro user password e h
    rcases hres : userCheck deps (some user) with ⟨l, e3⟩
    rw [hres] at h
    simp only at h
    subst h
    simp [checksToCommand, Checks.GetUser, hres]
  · intro user password search e h hs
    simp [checksToCommand, Checks.GetUser, h, checksToCommand.user, hs]

/-- A witness of C5: a CreateSession request with a user check without
variant and a password check, and a SetSession request with a user check for
an unknown ID and a password check. -/
theorem handlers_fail_fast_witness :
    (CreateSession sampleDeps sampleCtx
      { Checks := some { User := some { Search := none },
                         Password := some { Password := "secret" } },
        Metadata := [] }).err
      = some (ThrowUnimplementedf none "SESSION-d3b4g0" "user search <nil> not implemented") ∧
    (CreateSession sampleDeps sampleCtx
      { Checks := some { User := some { Search := none },
                         Password := some { Password := "secret" } },
        Metadata := [] }).calls = [] ∧
    (SetSession sampleDeps sampleCtx
      { SessionId := "s1", SessionToken := "t1",
        Checks := some { User := some { Search := some (.UserId "nobody") },
                         Password := some { Password := "secret" } },
        Metadata := [] }).err = some (.external "user not found") ∧
    (SetSession sampleDeps sampleCtx
      { SessionId := "s1", SessionToken := "t1",
        Checks := some { User := some { Search := some (.UserId "nobody") },
                         Password := some { Password := "secret" } },
        Metadata := [] }).calls = [] :=
  have h := handlers_fail_fast sampleDeps sampleCtx
    { Checks := some { User := some { Search := none },
                       Password := some { Password := "secret" } },
      Metadata := [] }
    { SessionId := "s1", SessionToken := "t1",
      Checks := some { User := some { Search := some (.UserId "nobody") },
                       Password := some { Password := "secret" } },
      Metadata := [] }
    (ThrowUnimplementedf none "SESSION-d3b4g0" "user search <nil> not implemented")
    (.external "user not found") (by decide) (by decide)
  ⟨h.2.1, h.2.2.1, h.2.2.2.2.1, h.2.2.2.2.2.1⟩

/-- C2: when the checks of a SetSession request convert and
`command.UpdateSession` succeeds, `SetSession` returns a response and no
error; the session token of the response is the token minted by the command
when that token is not empty, and the session token of the request when it is
empty; so the token of the response is empty only if both are. -/
theorem SetSession_token_fallback (deps : Deps Q LQ D P) (ctx : Context)
    (req : SetSessionRequest) (checks : Option (List SessionCheck)) (set : SessionChanged D)
    (hchecks : setSessionRequestToCommand deps ctx req = (checks, none))
    (hupdate : deps.UpdateSession ctx req.SessionId req.SessionToken (checks.getD [])
      req.Metadata = .ok set) :
    ∃ resp, (SetSession deps ctx req).resp = some resp ∧
      (SetSession deps ctx req).err = none ∧
      (set.NewToken ≠ "" → resp.SessionToken = set.NewToken) ∧
      (set.NewToken = "" → resp.SessionToken = req.SessionToken) ∧
      (resp.SessionToken = "" → set.NewToken = "" ∧ req.SessionToken = "") := by
  by_cases hnew : set.NewToken = ""
  · refine ⟨_, by simp only [SetSession, hchecks, hupdate]; rfl,
      by simp only [SetSession, hchecks, hupdate], ?_, ?_, ?_⟩
    · intro h; exact absurd hnew h
    · intro _; simp [hnew]
    · intro h; simp [hnew] at h; exact ⟨hnew, h⟩
  · refine ⟨_, by simp only [SetSession, hchecks, hupdate]; rfl,
      by simp only [SetSession, hchecks, hupdate], ?_, ?_, ?_⟩
    · intro _; simp [hnew]
    · intro h; exact absurd h hnew
    · intro h; simp [hnew] at h

/-- A witness of C2: the sample command layer mints no token for an update,
and the response carries the token of the request. -/
theorem SetSession_token_fallback_witness :
    ∃ resp, (SetSession sampleDeps sampleCtx
        { SessionId := "s1", SessionToken := "t1", Checks := none, Metadata := [] }).resp
        = some resp ∧
      (SetSession sampleDeps sampleCtx
        { SessionId := "s1", SessionToken := "t1", Checks := none, Metadata := [] }).err = none ∧
      resp.SessionToken = "t1" :=
  have h := SetSession_token_fallback sampleDeps sampleCtx
    { SessionId := "s1", SessionToken := "t1", Checks := none, Metadata := [] } (some [])
    { ObjectDetails := 2, ID := "s1", NewToken := "" } rfl rfl
  h.elim fun resp hr => ⟨resp, hr.1, hr.2.1, hr.2.2.2.1 rfl⟩

/-- C9: when the conversion of a checks message (a nil one included) succeeds,
the list it returns is the user check, if the message has one, followed by the
password check, if the message has one, and nothing else: it has one entry for
each check present and at most two; the user check carries the ID of the user
that the lookup returned for the strategy of `userCheck`, and the password
check the password of the request. -/
theorem checksToCommand_order (deps : Deps Q LQ D P) (ctx : Context) (checks : Option Checks)
    (hok : (checksToCommand deps ctx checks).2 = none) :
    ∃ userPart : List SessionCheck,
      checksToCommand deps ctx checks
        = (some (userPart ++
            (match Checks.GetPassword checks with
             | some password => [SessionCheck.CheckPassword password.Password]
             | none => [])), none) ∧
      (Checks.GetUser checks = none → userPart = []) ∧
      (∀ user, Checks.GetUser checks = some user →
        ∃ search found, userCheck deps (some user) = (some search, none) ∧
          search.search deps ctx = .ok found ∧
          userPart = [SessionCheck.CheckUser found.ID]) ∧
      userPart.length = (if (Checks.GetUser checks).isSome then 1 else 0) ∧
      (userPart ++
          (match Checks.GetPassword checks with
           | some password => [SessionCheck.CheckPassword password.Password]
           | none => [])).length
        = (if (Checks.GetUser checks).isSome then 1 else 0)
          + (if (Checks.GetPassword checks).isSome then 1 else 0) ∧
      (userPart ++
          (match Checks.GetPassword checks with
           | some password => [SessionCheck.CheckPassword password.Password]
           | none => [])).length ≤ 2 := by
  cases hu : Checks.GetUser checks with
  | none =>
    refine ⟨[], ?_, fun _ => rfl, fun user h => by simp at h, by simp, ?_, ?_⟩
    · cases hp : Checks.GetPassword checks <;>
        simp [checksToCommand, hu, userCheck, checksToCommand.user, hp,
          CheckPassword.GetPassword]
    · cases hp : Checks.GetPassword checks <;> simp
    · cases hp : Checks.GetPassword checks <;> simp
  | some user =>
    rcases huc : userCheck deps (some user) with ⟨search, e⟩
    cases e with
    | some err =>
      simp [checksToCommand, hu, huc] at hok
    | none =>
      cases search with
      | none =>
        -- a present user check never yields neither strategy nor error
        exfalso
        simp only [userCheck] at huc
        split at huc
        · simp [userByID] at huc
        · simp only [userByLoginName] at huc
          split at huc <;> simp at huc
        · simp at huc
      | some search =>
        cases hs : search.search deps ctx with
        | error err =>
          simp [checksToCommand, hu, huc, checksToCommand.user, hs] at hok
        | ok found =>
          refine ⟨[SessionCheck.CheckUser found.ID], ?_, fun h => by simp at h, ?_,
            by simp, ?_, ?_⟩
          · cases hp : Checks.GetPassword checks <;>
              simp [checksToCommand, hu, huc, checksToCommand.user, hs, hp,
                CheckPassword.GetPassword]
          · intro user2 h
            have : user2 = user := by simpa using h.symm
            subst this
            exact ⟨search, found, huc, hs, rfl⟩
          · cases hp : Checks.GetPassword checks <;> simp
          · cases hp : Checks.GetPassword checks <;> simp

/-- A witness of C9: a login-name check for `alice` and a password check; the
user check carries the ID `u1` of the user found, not the login name. -/
theorem checksToCommand_order_witness :
    checksToCommand sampleDeps sampleCtx
        (some { User := some { Search := some (.LoginName "alice") },
                Password := some { Password := "secret" } })
      = (some [SessionCheck.CheckUser "u1", SessionCheck.CheckPassword "secret"], none) ∧
    checksToCommand sampleDeps sampleCtx none = (some [], none) ∧
    checksToCommand sampleDeps sampleCtx (some { User := none, Password := none })
      = (some [], none) :=
  have h := checksToCommand_order sampleDeps sampleCtx
    (some { User := some { Search := some (.LoginName "alice") },
            Password := some { Password := "secret" } }) (by decide)
  h.elim fun _ _ => ⟨by decide, by decide, by decide⟩

/-- C10: `passwordFactorToPb` returns a factor exactly when the password check
time is not zero; `userFactorToPb` returns a factor exactly when the user ID is
not empty and the user check time is not zero; `factorsToPb` returns nil
exactly when both return nil, and otherwise the two results; the factors
carry the check times, the user ID, the login name and the display name of the
read model. -/
theorem factorsToPb_presence (s : QuerySession) :
    ((passwordFactorToPb s.PasswordFactor).isSome ↔
      s.PasswordFactor.PasswordCheckedAt.IsZero = false) ∧
    (∀ pw, passwordFactorToPb s.PasswordFactor = some pw →
      pw = { VerifiedAt := timestamppbNew s.PasswordFactor.PasswordCheckedAt }) ∧
    ((userFactorToPb s.UserFactor).isSome ↔
      (s.UserFactor.UserID ≠ "" ∧ s.UserFactor.UserCheckedAt.IsZero = false)) ∧
    (∀ user, userFactorToPb s.UserFactor = some user →
      user = { VerifiedAt := timestamppbNew s.UserFactor.UserCheckedAt
               Id := s.UserFactor.UserID
               LoginName := s.UserFactor.LoginName
               DisplayName := s.UserFactor.DisplayName }) ∧
    (factorsToPb s = none ↔
      (userFactorToPb s.UserFactor = none ∧ passwordFactorToPb s.PasswordFactor = none)) ∧
    (factorsToPb s ≠ none →
      factorsToPb s = some { User := userFactorToPb s.UserFactor
                             Password := passwordFactorToPb s.PasswordFactor }) := by
  refine ⟨?_, ?_, ?_, ?_, ?_, ?_⟩
  · unfold passwordFactorToPb
    split <;> simp_all
  · intro pw h
    unfold passwordFactorToPb at h
    split at h
    · simp at h
    · simpa using h.symm
  · unfold userFactorToPb
    split
    · rename_i hc
      simp only [Option.isSome_none, Bool.false_eq_true, ne_eq, false_iff, not_and,
        Bool.not_eq_false]
      simp only [Bool.or_eq_true, beq_iff_eq] at hc
      intro hne
      exact hc.resolve_left hne
    · simp_all
  · intro user h
    unfold userFactorToPb at h
    split at h
    · simp at h
    · simpa using h.symm
  · unfold factorsToPb
    simp only []
    split <;> simp_all [Option.isNone_iff_eq_none]
  · intro h
    unfold factorsToPb at h ⊢
    simp only [] at h ⊢
    split
    · rename_i hc; simp [hc] at h
    · rfl

end

end Session

/-! ## Properties of the JSON decoder -/

namespace EncodingJSON

theorem hexValue_of_isHex (c : Char) (h : isHex c = true) : ∃ v, hexValue c = some v := by
  unfold isHex at h
  unfold hexValue
  split
  · exact ⟨_, rfl⟩
  · split
    · exact ⟨_, rfl⟩
    · split
      · exact ⟨_, rfl⟩
      · simp_all

theorem getu4_of_hex (a b c d : Char) (rest : List Char)
    (ha : isHex a = true) (hb : isHex b = true) (hc : isHex c = true) (hd : isHex d = true) :
    ∃ r, getu4 ('\\' :: 'u' :: a :: b :: c :: d :: rest) = some r := by
  obtain ⟨va, hva⟩ := hexValue_of_isHex a ha
  obtain ⟨vb, hvb⟩ := hexValue_of_isHex b hb
  obtain ⟨vc, hvc⟩ := hexValue_of_isHex c hc
  obtain ⟨vd, hvd⟩ := hexValue_of_isHex d hd
  exact ⟨((va * 16 + vb) * 16 + vc) * 16 + vd, by simp [getu4, hva, hvb, hvc, hvd]⟩

theorem units_append {p q : List Char} (hp : Units p) (hq : Units q) : Units (p ++ q) := by
  induction hp with
  | nil => simpa using hq
  | plain c rest h1 h2 h3 _ ih => exact Units.plain c _ h1 h2 h3 ih
  | esc e rest h _ ih => exact Units.esc e _ h ih
  | uni a b c d rest ha hb hc hd _ ih => exact Units.uni a b c d _ ha hb hc hd ih

/-- What follows a leading `\uXXXX` in the text of a string literal is the
text of a string literal. -/
theorem units_drop_uni (a b c d : Char) (rest : List Char)
    (h : Units ('\\' :: 'u' :: a :: b :: c :: d :: rest)) : Units rest := by
  cases h with
  | plain c rest h1 h2 h3 h4 => simp at h2
  | esc e rest h h2 => simp at h
  | uni a b c d rest ha hb hc hd h => exact h

theorem getu4_shape (l : List Char) (r : Nat) (h : getu4 l = some r) :
    ∃ a b c d rest, l = '\\' :: 'u' :: a :: b :: c :: d :: rest := by
  unfold getu4 at h
  split at h
  · exact ⟨_, _, _, _, _, rfl⟩
  · simp at h

theorem decodeRune_none (r : Nat) : DecodeRune r none = ReplacementChar := rfl

/-- Fuel beyond the length of the text does not change what the loop of
`unquoteBytes` returns. -/
theorem unquoteBytes_loop_fuel : ∀ (f1 f2 : Nat) (raw : List Char),
    raw.length < f1 → raw.length < f2 →
    unquoteBytes.loop f1 raw = unquoteBytes.loop f2 raw := by
  intro f1
  induction f1 with
  | zero => intro f2 raw h; omega
  | succ f1 ih =>
    intro f2 raw h1 h2
    cases f2 with
    | zero => omega
    | succ f2 =>
      cases raw with
      | nil => simp [unquoteBytes.loop]
      | cons c rest =>
        simp only [List.length_cons] at h1 h2
        have hr : unquoteBytes.loop f1 rest = unquoteBytes.loop f2 rest :=
          ih f2 rest (by omega) (by omega)
        cases rest with
        | nil => simp only [unquoteBytes.loop]; rw [hr]
        | cons e rest1 =>
          simp only [List.length_cons] at h1 h2
          have h0 : unquoteBytes.loop f1 rest1 = unquoteBytes.loop f2 rest1 :=
            ih f2 rest1 (by omega) (by omega)
          have h4 : unquoteBytes.loop f1 (rest1.drop 4) = unquoteBytes.loop f2 (rest1.drop 4) :=
            ih f2 _ (by simp only [List.length_drop]; omega)
              (by simp only [List.length_drop]; omega)
          have h10 : unquoteBytes.loop f1 (rest1.drop 10)
              = unquoteBytes.loop f2 (rest1.drop 10) :=
            ih f2 _ (by simp only [List.length_drop]; omega)
              (by simp only [List.length_drop]; omega)
          simp only [unquoteBytes.loop, hr, h0, h4, h10]

theorem unquoteBytes_loop_units : ∀ (fuel : Nat) (raw : List Char), raw.length < fuel →
    Units raw → (unquoteBytes.loop fuel raw).isSome = true := by
  intro fuel
  induction fuel with
  | zero => intro raw h; omega
  | succ fuel ih =>
    intro raw hlen hu
    cases hu with
    | nil => rfl
    | plain c rest h1 h2 h3 h4 =>
      have := ih rest (by simp at hlen; omega) h4
      simp [unquoteBytes.loop, h1, h2, h3, this]
    | esc e rest h h2 =>
      have := ih rest (by simp at hlen; omega) h2
      simp only [Bool.or_eq_true, beq_iff_eq] at h
      rcases h with ((((((h | h) | h) | h) | h) | h) | h) | h <;> subst h <;>
        simp [unquoteBytes.loop, this]
    | uni a b c d rest ha hb hc hd h2 =>
      obtain ⟨rr, hrr⟩ := getu4_of_hex a b c d rest ha hb hc hd
      have hrest := ih rest (by simp at hlen; omega) h2
      simp only [unquoteBytes.loop, hrr, beq_self_eq_true, ↓reduceIte]
      have hdec : ('u' == '"' || 'u' == '\\' || 'u' == '/' || 'u' == '\'') = false := by decide
      simp only [hdec, show ('u' == 'b') = false by decide, show ('u' == 'f') = false by decide,
        show ('u' == 'n') = false by decide, show ('u' == 'r') = false by decide,
        show ('u' == 't') = false by decide, Bool.false_eq_true, ↓reduceIte, List.drop_succ_cons,
        List.drop_zero]
      split
      · split
        · rename_i hne
          cases hg : getu4 rest with
          | none => simp [hg, decodeRune_none] at hne
          | some r2 =>
            obtain ⟨e, f, g, h, rest11, hshape⟩ := getu4_shape rest r2 hg
            subst hshape
            have h11 := units_drop_uni e f g h rest11 h2
            have := ih rest11 (by simp at hlen; omega) h11
            simp [this]
        · simp [hrest]
      · simp [hrest]

/-- The text of a string literal that the scanner lets through is unquoted
without failure. -/
theorem unquoteBytes_of_units (raw : List Char) (h : Units raw) :
    ∃ s, unquoteBytes raw = some s :=
  Option.isSome_iff_exists.mp (unquoteBytes_loop_units _ raw (Nat.lt_succ_self _) h)

theorem core_error (s : Scanner) (c : Char) (ctx : String) (h : Core s) :
    Core (s.error c ctx) := ⟨h.frames, h.value, h.top⟩

theorem inv_error (s : Scanner) (c : Char) (ctx : String) (h : Core s) :
    Inv (s.error c ctx) :=
  ⟨core_error s c ctx h, trivial, by simp [Scanner.error], by simp [Scanner.error]⟩

@[simp] theorem emit_step (s : Scanner) (v : Value) : (s.emit v).step = s.step := by
  unfold Scanner.emit; split <;> (try split) <;> rfl

@[simp] theorem emit_lit (s : Scanner) (v : Value) : (s.emit v).lit = s.lit := by
  unfold Scanner.emit; split <;> (try split) <;> rfl

@[simp] theorem emit_endTop (s : Scanner) (v : Value) : (s.emit v).endTop = s.endTop := by
  unfold Scanner.emit; split <;> (try split) <;> rfl

theorem emit_nil (s : Scanner) (v : Value) (h : s.parseState = []) :
    (s.emit v).value = some v ∧ (s.emit v).parseState = [] := by
  unfold Scanner.emit; simp [h]

theorem emit_ne_nil (s : Scanner) (v : Value) (h : s.parseState ≠ []) :
    (s.emit v).parseState ≠ [] := by
  unfold Scanner.emit; split <;> (try split) <;> simp_all

theorem emit_core (s : Scanner) (v : Value) (h : Core s) (hv : v.Wf) : Core (s.emit v) := by
  obtain ⟨hf, hval, htop⟩ := h
  unfold Scanner.emit
  split
  · exact ⟨by simpa using hf, by intro w hw; simp at hw; subst hw; exact hv, by simp⟩
  · rename_i ms key rest heq
    split
    · rename_i raw
      refine ⟨?_, hval, htop⟩
      intro f hfm
      simp only [List.mem_cons] at hfm
      rcases hfm with rfl | hfm
      · have := hf (.parseObjectKey ms key) (by simp [heq])
        cases hv with
        | string _ hu => exact ⟨this.1, by intro k hk; simp at hk; subst hk; exact hu⟩
      · exact hf f (by simp [heq, hfm])
    · exact ⟨hf, hval, htop⟩
  · rename_i ms k rest heq
    refine ⟨?_, hval, htop⟩
    intro f hfm
    simp only [List.mem_cons] at hfm
    rcases hfm with rfl | hfm
    · have := hf (.parseObjectValue ms (some k)) (by simp [heq])
      refine ⟨?_, by simp⟩
      intro m hm
      simp only [List.mem_append, List.mem_singleton] at hm
      rcases hm with hm | rfl
      · exact this.1 m hm
      · exact ⟨this.2 k rfl, hv⟩
    · exact hf f (by simp [heq, hfm])
  · exact ⟨hf, hval, htop⟩
  · rename_i es rest heq
    refine ⟨?_, hval, htop⟩
    intro f hfm
    simp only [List.mem_cons] at hfm
    rcases hfm with rfl | hfm
    · have := hf (.parseArrayValue es) (by simp [heq])
      intro e he
      simp only [List.mem_append, List.mem_singleton] at he
      rcases he with he | rfl
      · exact this e he
      · exact hv
    · exact hf f (by simp [heq, hfm])

theorem stateEndTop_inv (s : Scanner) (c : Char) (h : Core s) (hs : s.step = .stateEndTop) :
    Inv (stateEndTop s c) := by
  unfold stateEndTop
  split
  · exact inv_error s c _ h
  · exact ⟨h, by simp [hs, litOK], by simp [hs], by simp [hs]⟩

theorem popParseState_inv (s : Scanner) (v : Value) (h : Core s) (hv : v.Wf)
    (hne : s.parseState ≠ []) : Inv (s.popParseState v) := by
  unfold Scanner.popParseState
  split
  · rename_i heq
    exact absurd heq hne
  · rename_i f rest heq
    have hc : Core { s with parseState := rest } :=
      ⟨fun g hg => h.frames g (by simp [heq, hg]), h.value, h.top⟩
    have hce := emit_core _ v hc hv
    simp only []
    split
    · rename_i hemp
      have hnil : rest = [] := by simpa using hemp
      have hen := emit_nil { s with parseState := rest } v hnil
      exact ⟨⟨hce.frames, hce.value, by simp [hen.1]⟩, by simp [litOK], by simp, by simp⟩
    · rename_i hemp
      have hnil : rest ≠ [] := by simpa using hemp
      have hen := emit_ne_nil { s with parseState := rest } v hnil
      exact ⟨⟨hce.frames, hce.value, by simpa using hce.top⟩, by simp [litOK],
        by intro _ h2; exact absurd h2 hen, by simp⟩

theorem stateEndValue_inv (s : Scanner) (c : Char) (h : Core s)
    (hval : s.parseState = [] → s.value.isSome = true) : Inv (stateEndValue s c) := by
  unfold stateEndValue
  split
  · rename_i heq
    exact stateEndTop_inv _ c ⟨h.frames, h.value, fun _ => hval heq⟩ rfl
  · rename_i ps rest heq
    split
    · exact ⟨⟨h.frames, h.value, h.top⟩, by simp [litOK], by simp [heq], by simp⟩
    · split
      · rename_i ms key
        split
        · refine ⟨⟨?_, h.value, h.top⟩, by simp [litOK], by simp, by simp⟩
          intro f hf
          simp only [List.mem_cons] at hf
          rcases hf with rfl | hf
          · exact h.frames (.parseObjectKey ms key) (by simp [heq])
          · exact h.frames f (by simp [heq, hf])
        · exact inv_error s c _ h
      · rename_i ms key
        have hfr := h.frames (.parseObjectValue ms key) (by simp [heq])
        split
        · refine ⟨⟨?_, h.value, h.top⟩, by simp [litOK], by simp, by simp⟩
          intro f hf
          simp only [List.mem_cons] at hf
          rcases hf with rfl | hf
          · exact ⟨hfr.1, by simp⟩
          · exact h.frames f (by simp [heq, hf])
        · split
          · exact popParseState_inv s _ h
              (Value.Wf.object ms (fun m hm => (hfr.1 m hm).1) (fun m hm => (hfr.1 m hm).2))
              (by simp [heq])
          · exact inv_error s c _ h
      · rename_i es
        have hfr := h.frames (.parseArrayValue es) (by simp [heq])
        split
        · exact ⟨⟨h.frames, h.value, h.top⟩, by simp [litOK], by simp, by simp⟩
        · split
          · exact popParseState_inv s _ h (Value.Wf.array es hfr) (by simp [heq])
          · exact inv_error s c _ h

theorem pushParseState_inv (s : Scanner) (c : Char) (f : Frame) (h : Core s) (hf : f.OK)
    (hlit : litOK s.step s.lit) (hs : s.step ≠ .stateEndValue) :
    Inv (s.pushParseState c f) := by
  have hc : Core { s with parseState := f :: s.parseState } := by
    refine ⟨?_, h.value, h.top⟩
    intro g hg
    simp only [List.mem_cons] at hg
    rcases hg with rfl | hg
    · exact hf
    · exact h.frames g hg
  unfold Scanner.pushParseState
  dsimp only
  split
  · exact ⟨hc, hlit, fun e => absurd e hs, by simp⟩
  · exact inv_error _ c _ hc

theorem stateBeginValue_inv (s : Scanner) (c : Char) (h : Core s)
    (hs : s.step = .stateBeginValue ∨ s.step = .stateBeginValueOrEmpty)
    (harr : s.step = .stateBeginValueOrEmpty → s.parseState ≠ []) :
    Inv (stateBeginValue s c) := by
  unfold stateBeginValue
  have hlit : litOK s.step s.lit := by rcases hs with hs | hs <;> simp [hs, litOK]
  split
  · exact ⟨h, hlit, by rcases hs with hs | hs <;> simp [hs], harr⟩
  split
  · exact pushParseState_inv _ c _ ⟨h.frames, h.value, h.top⟩ ⟨by simp, by simp⟩ trivial
      (by simp)
  split
  · exact pushParseState_inv _ c _ ⟨h.frames, h.value, h.top⟩ (by intro e he; simp at he)
      trivial (by simp)
  split
  · exact ⟨⟨h.frames, h.value, h.top⟩, by simpa [litOK] using Units.nil, by simp, by simp⟩
  split
  · exact ⟨⟨h.frames, h.value, h.top⟩, by simp [litOK], by simp, by simp⟩
  split
  · exact ⟨⟨h.frames, h.value, h.top⟩, by simp [litOK], by simp, by simp⟩
  split
  · exact ⟨⟨h.frames, h.value, h.top⟩, by simp [litOK], by simp, by simp⟩
  split
  · exact ⟨⟨h.frames, h.value, h.top⟩, by simp [litOK], by simp, by simp⟩
  split
  · exact ⟨⟨h.frames, h.value, h.top⟩, by simp [litOK], by simp, by simp⟩
  split
  · exact ⟨⟨h.frames, h.value, h.top⟩, by simp [litOK], by simp, by simp⟩
  · exact inv_error s c _ h

theorem stateBeginValueOrEmpty_inv (s : Scanner) (c : Char) (h : Inv s)
    (hs : s.step = .stateBeginValueOrEmpty) : Inv (stateBeginValueOrEmpty s c) := by
  unfold stateBeginValueOrEmpty
  split
  · exact h
  split
  · exact stateEndValue_inv s c h.core (fun hnil => absurd hnil (h.arr hs))
  · exact stateBeginValue_inv s c h.core (Or.inr hs) h.arr

theorem stateBeginString_inv (s : Scanner) (c : Char) (h : Core s)
    (hs : s.step = .stateBeginString ∨ s.step = .stateBeginStringOrEmpty) :
    Inv (stateBeginString s c) := by
  unfold stateBeginString
  split
  · exact ⟨h, by rcases hs with hs | hs <;> simp [hs, litOK],
      by rcases hs with hs | hs <;> simp [hs], by rcases hs with hs | hs <;> simp [hs]⟩
  split
  · exact ⟨⟨h.frames, h.value, h.top⟩, by simpa [litOK] using Units.nil, by simp, by simp⟩
  · exact inv_error s c _ h

theorem stateBeginStringOrEmpty_inv (s : Scanner) (c : Char) (h : Inv s)
    (hs : s.step = .stateBeginStringOrEmpty) : Inv (stateBeginStringOrEmpty s c) := by
  unfold stateBeginStringOrEmpty
  split
  · exact h
  split
  · split
    · rename_i ms key rest heq
      refine stateEndValue_inv _ c ⟨?_, h.core.value, h.core.top⟩ (by simp)
      intro f hf
      simp only [List.mem_cons] at hf
      rcases hf with rfl | hf
      · exact ⟨(h.core.frames (.parseObjectKey ms key) (by simp [heq])).1, by simp⟩
      · exact h.core.frames f (by simp [heq, hf])
    · exact inv_error s c _ h.core
  · exact stateBeginString_inv s c h.core (Or.inr hs)

theorem emit_value (s : Scanner) (v : Value) (h : (s.emit v).parseState = []) :
    (s.emit v).value.isSome = true := by
  by_cases hnil : s.parseState = []
  · simp [(emit_nil s v hnil).1]
  · exact absurd h (emit_ne_nil s v hnil)

theorem emit_endValue_inv (s : Scanner) (v : Value) (h : Core s) (hv : v.Wf)
    (hs : s.step = .stateEndValue) : Inv (s.emit v) :=
  ⟨emit_core s v h hv, by simp [hs, litOK], fun _ => emit_value s v, by simp [hs]⟩

theorem emitNumber_endValue_inv (s : Scanner) (c : Char) (h : Core s) :
    Inv (stateEndValue s.emitNumber c) :=
  stateEndValue_inv _ c (emit_core _ _ ⟨h.frames, h.value, h.top⟩ (Value.Wf.number _))
    (emit_value _ _)

theorem stateInString_inv (s : Scanner) (c : Char) (h : Inv s) (hs : s.step = .stateInString) :
    Inv (stateInString s c) := by
  have hl : Units s.lit := by simpa [hs, litOK] using h.lit
  unfold stateInString
  split
  · exact emit_endValue_inv _ _ ⟨h.core.frames, h.core.value, h.core.top⟩
      (Value.Wf.string _ hl)
      rfl
  split
  · rename_i _ hc
    have : c = '\\' := by simpa using hc
    subst this
    exact ⟨⟨h.core.frames, h.core.value, h.core.top⟩, ⟨s.lit, hl, rfl⟩, by simp,
      by simp⟩
  split
  · exact inv_error s c _ h.core
  · rename_i h1 h2 h3
    refine ⟨⟨h.core.frames, h.core.value, h.core.top⟩, ?_, by simp [hs], by simp [hs]⟩
    simp only [hs, litOK]
    exact units_append hl (Units.plain c [] (by simpa using h1) (by simpa using h2) h3 Units.nil)

theorem stateInStringEsc_inv (s : Scanner) (c : Char) (h : Inv s)
    (hs : s.step = .stateInStringEsc) : Inv (stateInStringEsc s c) := by
  obtain ⟨p, hp, hl⟩ : ∃ p, Units p ∧ s.lit = p ++ ['\\'] := by
    simpa [hs, litOK] using h.lit
  unfold stateInStringEsc
  split
  · rename_i hc
    refine ⟨⟨h.core.frames, h.core.value, h.core.top⟩, ?_, by simp, by simp⟩
    simp only [litOK, hl, List.append_assoc, List.singleton_append]
    exact units_append hp (Units.esc c [] hc Units.nil)
  split
  · rename_i _ hc
    have : c = 'u' := by simpa using hc
    subst this
    exact ⟨⟨h.core.frames, h.core.value, h.core.top⟩, ⟨p, hp, by simp [hl]⟩, by simp,
      by simp⟩
  · exact inv_error s c _ h.core

theorem stateInStringEscU_inv (s : Scanner) (c : Char) (h : Inv s)
    (hs : s.step = .stateInStringEscU) :
    Inv (stateInStringEscUn .stateInStringEscU1 s c) := by
  obtain ⟨p, hp, hl⟩ : ∃ p, Units p ∧ s.lit = p ++ ['\\', 'u'] := by
    simpa [hs, litOK] using h.lit
  unfold stateInStringEscUn
  split
  · rename_i hc
    exact ⟨⟨h.core.frames, h.core.value, h.core.top⟩, ⟨p, c, hp, hc, by simp [hl]⟩,
      by simp, by simp⟩
  · exact inv_error s c _ h.core

theorem stateInStringEscU1_inv (s : Scanner) (c : Char) (h : Inv s)
    (hs : s.step = .stateInStringEscU1) :
    Inv (stateInStringEscUn .stateInStringEscU12 s c) := by
  obtain ⟨p, a, hp, ha, hl⟩ :
      ∃ p a, Units p ∧ isHex a = true ∧ s.lit = p ++ ['\\', 'u', a] := by
    simpa [hs, litOK] using h.lit
  unfold stateInStringEscUn
  split
  · rename_i hc
    exact ⟨⟨h.core.frames, h.core.value, h.core.top⟩, ⟨p, a, c, hp, ha, hc, by simp [hl]⟩,
      by simp, by simp⟩
  · exact inv_error s c _ h.core

theorem stateInStringEscU12_inv (s : Scanner) (c : Char) (h : Inv s)
    (hs : s.step = .stateInStringEscU12) :
    Inv (stateInStringEscUn .stateInStringEscU123 s c) := by
  obtain ⟨p, a, b, hp, ha, hb, hl⟩ :
      ∃ p a b, Units p ∧ isHex a = true ∧ isHex b = true ∧
        s.lit = p ++ ['\\', 'u', a, b] := by
    simpa [hs, litOK] using h.lit
  unfold stateInStringEscUn
  split
  · rename_i hc
    exact ⟨⟨h.core.frames, h.core.value, h.core.top⟩,
      ⟨p, a, b, c, hp, ha, hb, hc, by simp [hl]⟩, by simp, by simp⟩
  · exact inv_error s c _ h.core

theorem stateInStringEscU123_inv (s : Scanner) (c : Char) (h : Inv s)
    (hs : s.step = .stateInStringEscU123) :
    Inv (stateInStringEscUn .stateInString s c) := by
  obtain ⟨p, a, b, d, hp, ha, hb, hd, hl⟩ :
      ∃ p a b d, Units p ∧ isHex a = true ∧ isHex b = true ∧ isHex d = true ∧
        s.lit = p ++ ['\\', 'u', a, b, d] := by
    simpa [hs, litOK] using h.lit
  unfold stateInStringEscUn
  split
  · rename_i hc
    refine ⟨⟨h.core.frames, h.core.value, h.core.top⟩, ?_, by simp, by simp⟩
    simp only [litOK, hl, List.append_assoc, List.cons_append, List.nil_append]
    exact units_append hp (Units.uni a b d c [] ha hb hd hc Units.nil)
  · exact inv_error s c _ h.core

/-- A state that reads on inside a number or a literal name keeps the
invariant. -/
theorem inv_of_core (s : Scanner) (h : Core s) (h1 : litOK s.step s.lit)
    (h2 : s.step ≠ .stateEndValue) (h3 : s.step ≠ .stateBeginValueOrEmpty) : Inv s :=
  ⟨h, h1, fun e => absurd e h2, fun e => absurd e h3⟩

theorem state0_inv (s : Scanner) (c : Char) (h : Core s) : Inv (state0 s c) := by
  unfold state0
  split
  · exact inv_of_core _ ⟨h.frames, h.value, h.top⟩ trivial (by simp) (by simp)
  split
  · exact inv_of_core _ ⟨h.frames, h.value, h.top⟩ trivial (by simp) (by simp)
  · exact emitNumber_endValue_inv s c h

theorem state1_inv (s : Scanner) (c : Char) (h : Core s) : Inv (state1 s c) := by
  unfold state1
  split
  · exact inv_of_core _ ⟨h.frames, h.value, h.top⟩ trivial (by simp) (by simp)
  · exact state0_inv s c h

theorem stateNeg_inv (s : Scanner) (c : Char) (h : Core s) : Inv (stateNeg s c) := by
  unfold stateNeg
  split
  · exact inv_of_core _ ⟨h.frames, h.value, h.top⟩ trivial (by simp) (by simp)
  split
  · exact inv_of_core _ ⟨h.frames, h.value, h.top⟩ trivial (by simp) (by simp)
  · exact inv_error s c _ h

theorem stateDot_inv (s : Scanner) (c : Char) (h : Core s) : Inv (stateDot s c) := by
  unfold stateDot
  split
  · exact inv_of_core _ ⟨h.frames, h.value, h.top⟩ trivial (by simp) (by simp)
  · exact inv_error s c _ h

theorem stateDot0_inv (s : Scanner) (c : Char) (h : Core s) (hs : s.step = .stateDot0) :
    Inv (stateDot0 s c) := by
  unfold stateDot0
  split
  · exact inv_of_core _ ⟨h.frames, h.value, h.top⟩ (by simp [hs, litOK]) (by simp [hs])
      (by simp [hs])
  split
  · exact inv_of_core _ ⟨h.frames, h.value, h.top⟩ trivial (by simp) (by simp)
  · exact emitNumber_endValue_inv s c h

theorem stateESign_inv (s : Scanner) (c : Char) (h : Core s) : Inv (stateESign s c) := by
  unfold stateESign
  split
  · exact inv_of_core _ ⟨h.frames, h.value, h.top⟩ trivial (by simp) (by simp)
  · exact inv_error s c _ h

theorem stateE_inv (s : Scanner) (c : Char) (h : Core s) : Inv (stateE s c) := by
  unfold stateE
  split
  · exact inv_of_core _ ⟨h.frames, h.value, h.top⟩ trivial (by simp) (by simp)
  · exact stateESign_inv s c h

theorem stateE0_inv (s : Scanner) (c : Char) (h : Core s) (hs : s.step = .stateE0) :
    Inv (stateE0 s c) := by
  unfold stateE0
  split
  · exact inv_of_core _ ⟨h.frames, h.value, h.top⟩ (by simp [hs, litOK]) (by simp [hs])
      (by simp [hs])
  · exact emitNumber_endValue_inv s c h

theorem stateLetter_inv (want : Char) (next : Step) (ctx : String) (s : Scanner) (c : Char)
    (h : Core s) (h1 : litOK next s.lit) (h2 : next ≠ .stateEndValue)
    (h3 : next ≠ .stateBeginValueOrEmpty) : Inv (stateLetter want next ctx s c) := by
  unfold stateLetter
  split
  · exact inv_of_core _ ⟨h.frames, h.value, h.top⟩ h1 h2 h3
  · exact inv_error s c _ h

theorem stateLast_inv (want : Char) (v : Value) (ctx : String) (s : Scanner) (c : Char)
    (h : Core s) (hv : v.Wf) : Inv (stateLast want v ctx s c) := by
  unfold stateLast
  split
  · exact emit_endValue_inv _ _ ⟨h.frames, h.value, h.top⟩ hv rfl
  · exact inv_error s c _ h

/-- Every step of the scanner keeps the invariant. -/
theorem next_inv (s : Scanner) (c : Char) (h : Inv s) : Inv (s.next c) := by
  unfold Scanner.next
  split
  · rename_i hs; exact stateBeginValue_inv s c h.core (Or.inl hs) h.arr
  · rename_i hs; exact stateBeginValueOrEmpty_inv s c h hs
  · rename_i hs; exact stateBeginStringOrEmpty_inv s c h hs
  · rename_i hs; exact stateBeginString_inv s c h.core (Or.inl hs)
  · rename_i hs; exact stateEndValue_inv s c h.core (h.endValue hs)
  · rename_i hs; exact stateEndTop_inv s c h.core hs
  · rename_i hs; exact stateInString_inv s c h hs
  · rename_i hs; exact stateInStringEsc_inv s c h hs
  · rename_i hs; exact stateInStringEscU_inv s c h hs
  · rename_i hs; exact stateInStringEscU1_inv s c h hs
  · rename_i hs; exact stateInStringEscU12_inv s c h hs
  · rename_i hs; exact stateInStringEscU123_inv s c h hs
  · exact stateNeg_inv s c h.core
  · exact state1_inv s c h.core
  · exact state0_inv s c h.core
  · exact stateDot_inv s c h.core
  · rename_i hs; exact stateDot0_inv s c h.core hs
  · exact stateE_inv s c h.core
  · exact stateESign_inv s c h.core
  · rename_i hs; exact stateE0_inv s c h.core hs
  · exact stateLetter_inv _ _ _ s c h.core trivial (by simp) (by simp)
  · exact stateLetter_inv _ _ _ s c h.core trivial (by simp) (by simp)
  · exact stateLast_inv _ _ _ s c h.core (Value.Wf.bool true)
  · exact stateLetter_inv _ _ _ s c h.core trivial (by simp) (by simp)
  · exact stateLetter_inv _ _ _ s c h.core trivial (by simp) (by simp)
  · exact stateLetter_inv _ _ _ s c h.core trivial (by simp) (by simp)
  · exact stateLast_inv _ _ _ s c h.core (Value.Wf.bool false)
  · exact stateLetter_inv _ _ _ s c h.core trivial (by simp) (by simp)
  · exact stateLetter_inv _ _ _ s c h.core trivial (by simp) (by simp)
  · exact stateLast_inv _ _ _ s c h.core Value.Wf.null
  · exact h

theorem reset_inv : Inv Scanner.reset :=
  ⟨⟨by simp [Scanner.reset], by simp [Scanner.reset], by simp [Scanner.reset]⟩, trivial,
    by simp [Scanner.reset], by simp [Scanner.reset]⟩

theorem foldl_inv (data : List Char) (s : Scanner) (h : Inv s) :
    Inv (data.foldl Scanner.next s) := by
  induction data generalizing s with
  | nil => exact h
  | cons c rest ih => exact ih _ (next_inv s c h)

/-- At the end of the input a scanner without error holds the top-level
value. -/
theorem eof_value (s : Scanner) (h : Inv s) (herr : s.eof.err = none) :
    s.eof.value.isSome = true ∧ ∀ v, s.eof.value = some v → v.Wf := by
  unfold Scanner.eof at herr ⊢
  by_cases he : s.err.isSome = true
  · rw [if_pos he] at herr
    simp [herr] at he
  · rw [if_neg he] at herr ⊢
    by_cases ht : s.endTop = true
    · rw [if_pos ht]
      exact ⟨h.core.top ht, h.core.value⟩
    · rw [if_neg ht] at herr ⊢
      have hn := next_inv s ' ' h
      dsimp only at herr ⊢
      by_cases ht2 : (s.next ' ').endTop = true
      · rw [if_pos ht2]
        exact ⟨hn.core.top ht2, hn.core.value⟩
      · rw [if_neg ht2] at herr
        by_cases hnone : (s.next ' ').err.isNone = true
        · rw [if_pos hnone] at herr
          simp at herr
        · rw [if_neg hnone] at herr
          simp [herr] at hnone

/-- The decoder is given a value exactly when the scanner finds no syntax
error, and the string literals and keys of that value are texts that
`unquoteBytes` unquotes. -/
theorem checkValid_spec (data : List Char) :
    (∀ e, checkValid data = .error e ↔
      ((data.foldl Scanner.next Scanner.reset).eof).err = some e) ∧
    (∀ v, checkValid data = .ok v → v.Wf) := by
  have hinv := foldl_inv data Scanner.reset reset_inv
  unfold checkValid
  simp only []
  cases herr : ((data.foldl Scanner.next Scanner.reset).eof).err with
  | some e => simp
  | none =>
    obtain ⟨h1, h2⟩ := eof_value _ hinv herr
    obtain ⟨v, hv⟩ := Option.isSome_iff_exists.mp h1
    simp only [hv]
    exact ⟨by simp, by intro w hw; simp at hw; subst hw; exact h2 v hv⟩

end EncodingJSON

/-! ## Properties of `domain.go` -/

namespace EncodingJSON

theorem simpleLetterEqualFold_refl (s : List Char) : simpleLetterEqualFold s s = true := by
  induction s with
  | nil => rfl
  | cons c s ih => simp [simpleLetterEqualFold, ih]

/-- The field that a key selects is a field of the struct whose name equals
the key under the fold function. -/
theorem findField_some {σ : Type} (fields : List (StructField σ)) (key : List Char)
    (f : StructField σ) (h : findField fields key = some f) :
    f ∈ fields ∧ simpleLetterEqualFold f.name key = true := by
  unfold findField at h
  split at h
  · rename_i g hg
    have hfg : g = f := by simpa using h
    subst hfg
    refine ⟨List.mem_of_find?_eq_some hg, ?_⟩
    have := List.find?_some hg
    have hname : g.name = key := by simpa using this
    rw [hname]
    exact simpleLetterEqualFold_refl key
  · exact ⟨List.mem_of_find?_eq_some h, by simpa using List.find?_some h⟩

/-- A key that equals no field name under the fold function selects no
field. -/
theorem findField_none {σ : Type} (fields : List (StructField σ)) (key : List Char)
    (h : ∀ f ∈ fields, simpleLetterEqualFold f.name key = false) :
    findField fields key = none := by
  cases hf : findField fields key with
  | none => rfl
  | some f =>
    have := findField_some fields key f hf
    rw [h f this.1] at this
    simp at this

/-- The members of an object that select no field leave the struct and the
saved error as they are. -/
theorem decodeObject_skips {σ : Type} (fields : List (StructField σ))
    (members : List (List Char × Value)) (hkeys : ∀ m ∈ members, Units m.1)
    (hno : ∀ m ∈ members, ∀ key, unquoteBytes m.1 = some key → findField fields key = none)
    (s : σ) (saved : Option JSONError) :
    decodeObject fields members (s, saved) = (s, saved) := by
  induction members with
  | nil => rfl
  | cons m rest ih =>
    obtain ⟨rawKey, v⟩ := m
    obtain ⟨key, hkey⟩ := unquoteBytes_of_units rawKey (hkeys (rawKey, v) (by simp))
    have hnone := hno (rawKey, v) (by simp) key hkey
    simp only [decodeObject, hkey, hnone]
    exact ih (fun m hm => hkeys m (by simp [hm])) (fun m hm => hno m (by simp [hm]))

/-- A property of the struct that every store of a selected field keeps is
kept by the decoding of an object. -/
theorem decodeObject_keeps {σ : Type} (fields : List (StructField σ)) (P : σ → Prop)
    (members : List (List Char × Value))
    (hP : ∀ m ∈ members, ∀ key f, unquoteBytes m.1 = some key →
      findField fields key = some f →
      ∀ s, P s → P (f.store m.2 s).1)
    (s : σ) (saved : Option JSONError) (hs : P s) :
    P (decodeObject fields members (s, saved)).1 := by
  induction members generalizing s saved with
  | nil => exact hs
  | cons m rest ih =>
    obtain ⟨rawKey, v⟩ := m
    have hrest : ∀ m ∈ rest, ∀ key f, unquoteBytes m.1 = some key →
        findField fields key = some f → ∀ s, P s → P (f.store m.2 s).1 :=
      fun m hm => hP m (by simp [hm])
    cases hkey : unquoteBytes rawKey with
    | none => simpa [decodeObject, hkey] using hs
    | some key =>
      cases hf : findField fields key with
      | none =>
        simp only [decodeObject, hkey, hf]
        exact ih hrest s saved hs
      | some f =>
        simp only [decodeObject, hkey, hf]
        exact ih hrest _ _ (hP (rawKey, v) (by simp) key f hkey hf s hs)

/-- A key that does not select the field of a name, as `selects` tells, does
not equal the name under the fold function. -/
theorem fold_of_selects (name : String) (rawKey key : List Char)
    (hsel : selects name rawKey = false) (hkey : unquoteBytes rawKey = some key) :
    simpleLetterEqualFold name.toList key = false := by
  simpa [selects, hkey] using hsel

end EncodingJSON

namespace EncodingJSON

/-- A payload that is an object none of whose keys selects a field is decoded
without error and leaves the struct as it is. -/
theorem Unmarshal_skips {σ : Type} (fields : List (StructField σ)) (data : List Char)
    (members : List (List Char × Value)) (s : σ)
    (hobj : checkValid data = .ok (.object members))
    (hno : ∀ m ∈ members, ∀ key, unquoteBytes m.1 = some key →
      ∀ f ∈ fields, simpleLetterEqualFold f.name key = false) :
    Unmarshal fields data s = (s, none) := by
  have hwf := (checkValid_spec data).2 _ hobj
  cases hwf with
  | object _ hk _ =>
    simp only [Unmarshal, hobj, decodeStruct]
    exact decodeObject_skips fields members hk
      (fun m hm key hkey => findField_none fields key (hno m hm key hkey)) s none

/-- A property of the struct that every store of a field selected by a key of
the payload keeps holds of the struct that `Unmarshal` leaves. -/
theorem Unmarshal_keeps {σ : Type} (fields : List (StructField σ)) (P : σ → Prop)
    (data : List Char) (members : List (List Char × Value)) (s : σ)
    (hobj : checkValid data = .ok (.object members))
    (hP : ∀ m ∈ members, ∀ key f, unquoteBytes m.1 = some key →
      findField fields key = some f →
      ∀ s, P s → P (f.store m.2 s).1)
    (hs : P s) : P (Unmarshal fields data s).1 := by
  simp only [Unmarshal, hobj, decodeStruct]
  exact decodeObject_keeps fields P members hP s none hs

end EncodingJSON

namespace Org

open EncodingJSON

theorem DomainAddedEventMapper_skips (event : Event) (members : List (List Char × Value))
    (hobj : checkValid event.Data.toList = .ok (.object members))
    (hno : ∀ m ∈ members, selects "domain" m.1 = false) :
    DomainAddedEventMapper event
      = (some { BaseEvent := BaseEventFromRepo event, Domain := "" }, none) := by
  have := Unmarshal_skips DomainAddedEvent.fields event.Data.toList members
    { BaseEvent := BaseEventFromRepo event, Domain := "" } hobj
    (fun m hm key hkey f hf => by
      have hf2 : f.name = "domain".toList := by
        simp only [DomainAddedEvent.fields, List.mem_singleton] at hf
        rw [hf]
      rw [hf2]
      exact fold_of_selects "domain" m.1 key (hno m hm) hkey)
  simp only [DomainAddedEventMapper, this]

theorem DomainVerificationFailedEventMapper_skips (event : Event)
    (members : List (List Char × Value))
    (hobj : checkValid event.Data.toList = .ok (.object members))
    (hno : ∀ m ∈ members, selects "domain" m.1 = false) :
    DomainVerificationFailedEventMapper event
      = (some { BaseEvent := BaseEventFromRepo event, Domain := "" }, none) := by
  have := Unmarshal_skips DomainVerificationFailedEvent.fields event.Data.toList members
    { BaseEvent := BaseEventFromRepo event, Domain := "" } hobj
    (fun m hm key hkey f hf => by
      have hf2 : f.name = "domain".toList := by
        simp only [DomainVerificationFailedEvent.fields, List.mem_singleton] at hf
        rw [hf]
      rw [hf2]
      exact fold_of_selects "domain" m.1 key (hno m hm) hkey)
  simp only [DomainVerificationFailedEventMapper, this]

theorem DomainVerifiedEventMapper_skips (event : Event) (members : List (List Char × Value))
    (hobj : checkValid event.Data.toList = .ok (.object members))
    (hno : ∀ m ∈ members, selects "domain" m.1 = false) :
    DomainVerifiedEventMapper event
      = (some { BaseEvent := BaseEventFromRepo event, Domain := "" }, none) := by
  have := Unmarshal_skips DomainVerifiedEvent.fields event.Data.toList members
    { BaseEvent := BaseEventFromRepo event, Domain := "" } hobj
    (fun m hm key hkey f hf => by
      have hf2 : f.name = "domain".toList := by
        simp only [DomainVerifiedEvent.fields, List.mem_singleton] at hf
        rw [hf]
      rw [hf2]
      exact fold_of_selects "domain" m.1 key (hno m hm) hkey)
  simp only [DomainVerifiedEventMapper, this]

theorem DomainPrimarySetEventMapper_skips (event : Event) (members : List (List Char × Value))
    (hobj : checkValid event.Data.toList = .ok (.object members))
    (hno : ∀ m ∈ members, selects "domain" m.1 = false) :
    DomainPrimarySetEventMapper event
      = (some { BaseEvent := BaseEventFromRepo event, Domain := "" }, none) := by
  have := Unmarshal_skips DomainPrimarySetEvent.fields event.Data.toList members
    { BaseEvent := BaseEventFromRepo event, Domain := "" } hobj
    (fun m hm key hkey f hf => by
      have hf2 : f.name = "domain".toList := by
        simp only [DomainPrimarySetEvent.fields, List.mem_singleton] at hf
        rw [hf]
      rw [hf2]
      exact fold_of_selects "domain" m.1 key (hno m hm) hkey)
  simp only [DomainPrimarySetEventMapper, this]

theorem DomainRemovedEventMapper_skips (event : Event) (members : List (List Char × Value))
    (hobj : checkValid event.Data.toList = .ok (.object members))
    (hno : ∀ m ∈ members, selects "domain" m.1 = false) :
    DomainRemovedEventMapper event
      = (some { BaseEvent := BaseEventFromRepo event, Domain := "" }, none) := by
  have := Unmarshal_skips DomainRemovedEvent.fields event.Data.toList members
    { BaseEvent := BaseEventFromRepo event, Domain := "" } hobj
    (fun m hm key hkey f hf => by
      have hf2 : f.name = "domain".toList := by
        simp only [DomainRemovedEvent.fields, List.mem_singleton] at hf
        rw [hf]
      rw [hf2]
      exact fold_of_selects "domain" m.1 key (hno m hm) hkey)
  simp only [DomainRemovedEventMapper, this]

theorem DomainVerificationAddedEventMapper_skips {VT CV : Type} (codecs : Codecs VT CV)
    (event : Event) (members : List (List Char × Value))
    (hobj : checkValid event.Data.toList = .ok (.object members))
    (hno : ∀ m ∈ members, selects "domain" m.1 = false ∧
      selects "validationType" m.1 = false ∧ selects "validationCode" m.1 = false) :
    DomainVerificationAddedEventMapper codecs event
      = (some { BaseEvent := BaseEventFromRepo event, Domain := ""
                ValidationType := codecs.zeroValidationType, ValidationCode := none }, none) := by
  have := Unmarshal_skips (DomainVerificationAddedEvent.fields codecs) event.Data.toList members
    { BaseEvent := BaseEventFromRepo event, Domain := ""
      ValidationType := codecs.zeroValidationType, ValidationCode := none } hobj
    (fun m hm key hkey f hf => by
      simp only [DomainVerificationAddedEvent.fields, List.mem_cons, List.mem_singleton,
        List.not_mem_nil, or_false] at hf
      rcases hf with hf | hf | hf <;> rw [hf]
      · exact fold_of_selects "domain" m.1 key (hno m hm).1 hkey
      · exact fold_of_selects "validationType" m.1 key (hno m hm).2.1 hkey
      · exact fold_of_selects "validationCode" m.1 key (hno m hm).2.2 hkey)
  simp only [DomainVerificationAddedEventMapper, this]

end Org

namespace EncodingJSON

/-- A property of the struct that every store of a field keeps holds of the
struct that `Unmarshal` leaves, whatever the payload. -/
theorem Unmarshal_keeps_all {σ : Type} (fields : List (StructField σ)) (P : σ → Prop)
    (data : List Char) (s : σ)
    (hP : ∀ f ∈ fields, ∀ v s, P s → P (f.store v s).1) (hs : P s) :
    P (Unmarshal fields data s).1 := by
  unfold Unmarshal
  cases checkValid data with
  | error e => exact hs
  | ok v =>
    cases v with
    | object members =>
      exact decodeObject_keeps fields P members
        (fun m _ key f _ hf => hP f (findField_some fields key f hf).1 m.2) s none hs
    | null => exact hs
    | bool b => exact hs
    | number lit => exact hs
    | string raw => exact hs
    | array elems => exact hs

end EncodingJSON

namespace Org

open EncodingJSON

/-- The two cases of the result of `json.Unmarshal` on which every mapper
ends. -/
theorem surfaces_of_cases {σ : Type} (mapped : Ret σ) (r : σ × Option JSONError)
    (id message : String)
    (h1 : ∀ x e, r = (x, some e) →
      mapped = (none, some (ThrowInternal (some (.json e)) id message)))
    (h2 : ∀ x, r = (x, none) → mapped = (some x, none)) :
    SurfacesDecodeError mapped r id message := by
  obtain ⟨x, e⟩ := r
  cases e with
  | none =>
    have := h2 x rfl
    subst this
    exact ⟨by simp, by simp, by simp⟩
  | some err =>
    have := h1 x err rfl
    subst this
    refine ⟨by simp, ?_, by simp⟩
    intro e he
    have : err = e := by simpa using he
    subst this
    exact ⟨rfl, rfl, rfl⟩

/-- An event that a mapper returns without error is the struct that the
decoder left. -/
theorem decoded_of_surfaces {σ : Type} (mapped : Ret σ) (r : σ × Option JSONError)
    (id message : String) (h : SurfacesDecodeError mapped r id message) (e : σ)
    (he : mapped = (some e, none)) : r.2 = none ∧ e = r.1 := by
  obtain ⟨_, h2, h3⟩ := h
  cases hr : r.2 with
  | some err =>
    have := (h2 err hr).1
    rw [he] at this
    simp at this
  | none =>
    have := h3 hr
    rw [he] at this
    exact ⟨rfl, by simpa using this⟩

theorem DomainAddedEventMapper_surfaces (event : Event) :
    SurfacesDecodeError (DomainAddedEventMapper event)
      (Unmarshal DomainAddedEvent.fields event.Data.toList
        { BaseEvent := BaseEventFromRepo event, Domain := "" })
      "ORG-GBr52" "unable to unmarshal org domain added" :=
  surfaces_of_cases _ _ _ _
    (fun x e hr => by simp only [DomainAddedEventMapper, hr])
    (fun x hr => by simp only [DomainAddedEventMapper, hr])

theorem DomainVerificationAddedEventMapper_surfaces {VT CV : Type} (codecs : Codecs VT CV)
    (event : Event) :
    SurfacesDecodeError (DomainVerificationAddedEventMapper codecs event)
      (Unmarshal (DomainVerificationAddedEvent.fields codecs) event.Data.toList
        { BaseEvent := BaseEventFromRepo event, Domain := ""
          ValidationType := codecs.zeroValidationType, ValidationCode := none })
      "ORG-NRN32" "unable to unmarshal org domain verification added" :=
  surfaces_of_cases _ _ _ _
    (fun x e hr => by simp only [DomainVerificationAddedEventMapper, hr])
    (fun x hr => by simp only [DomainVerificationAddedEventMapper, hr])

theorem DomainVerificationFailedEventMapper_surfaces (event : Event) :
    SurfacesDecodeError (DomainVerificationFailedEventMapper event)
      (Unmarshal DomainVerificationFailedEvent.fields event.Data.toList
        { BaseEvent := BaseEventFromRepo event, Domain := "" })
      "ORG-Bhm37" "unable to unmarshal org domain verification failed" :=
  surfaces_of_cases _ _ _ _
    (fun x e hr => by simp only [DomainVerificationFailedEventMapper, hr])
    (fun x hr => by simp only [DomainVerificationFailedEventMapper, hr])

theorem DomainVerifiedEventMapper_surfaces (event : Event) :
    SurfacesDecodeError (DomainVerifiedEventMapper event)
      (Unmarshal DomainVerifiedEvent.fields event.Data.toList
        { BaseEvent := BaseEventFromRepo event, Domain := "" })
      "ORG-BFSwt" "unable to unmarshal org domain verified" :=
  surfaces_of_cases _ _ _ _
    (fun x e hr => by simp only [DomainVerifiedEventMapper, hr])
    (fun x hr => by simp only [DomainVerifiedEventMapper, hr])

theorem DomainPrimarySetEventMapper_surfaces (event : Event) :
    SurfacesDecodeError (DomainPrimarySetEventMapper event)
      (Unmarshal DomainPrimarySetEvent.fields event.Data.toList
        { BaseEvent := BaseEventFromRepo event, Domain := "" })
      "ORG-N5787" "unable to unmarshal org domain primary set" :=
  surfaces_of_cases _ _ _ _
    (fun x e hr => by simp only [DomainPrimarySetEventMapper, hr])
    (fun x hr => by simp only [DomainPrimarySetEventMapper, hr])

theorem DomainRemovedEventMapper_surfaces (event : Event) :
    SurfacesDecodeError (DomainRemovedEventMapper event)
      (Unmarshal DomainRemovedEvent.fields event.Data.toList
        { BaseEvent := BaseEventFromRepo event, Domain := "" })
      "ORG-BngB2" "unable to unmarshal org domain removed" :=
  surfaces_of_cases _ _ _ _
    (fun x e hr => by simp only [DomainRemovedEventMapper, hr])
    (fun x hr => by simp only [DomainRemovedEventMapper, hr])

/-- C7: each of the six mappers returns an error exactly when `json.Unmarshal`
of the payload into the event returns one; the error of the mapper is then the
Internal error of the mapper around the error of the decoder, and no event is
returned; otherwise the mapper returns the decoded event and no error. -/
theorem mappers_surface_decode_errors {VT CV : Type} (codecs : Codecs VT CV) (event : Event) :
    SurfacesDecodeError (DomainAddedEventMapper event)
      (Unmarshal DomainAddedEvent.fields event.Data.toList
        { BaseEvent := BaseEventFromRepo event, Domain := "" })
      "ORG-GBr52" "unable to unmarshal org domain added" ∧
    SurfacesDecodeError (DomainVerificationAddedEventMapper codecs event)
      (Unmarshal (DomainVerificationAddedEvent.fields codecs) event.Data.toList
        { BaseEvent := BaseEventFromRepo event, Domain := ""
          ValidationType := codecs.zeroValidationType, ValidationCode := none })
      "ORG-NRN32" "unable to unmarshal org domain verification added" ∧
    SurfacesDecodeError (DomainVerificationFailedEventMapper event)
      (Unmarshal DomainVerificationFailedEvent.fields event.Data.toList
        { BaseEvent := BaseEventFromRepo event, Domain := "" })
      "ORG-Bhm37" "unable to unmarshal org domain verification failed" ∧
    SurfacesDecodeError (DomainVerifiedEventMapper event)
      (Unmarshal DomainVerifiedEvent.fields event.Data.toList
        { BaseEvent := BaseEventFromRepo event, Domain := "" })
      "ORG-BFSwt" "unable to unmarshal org domain verified" ∧
    SurfacesDecodeError (DomainPrimarySetEventMapper event)
      (Unmarshal DomainPrimarySetEvent.fields event.Data.toList
        { BaseEvent := BaseEventFromRepo event, Domain := "" })
      "ORG-N5787" "unable to unmarshal org domain primary set" ∧
    SurfacesDecodeError (DomainRemovedEventMapper event)
      (Unmarshal DomainRemovedEvent.fields event.Data.toList
        { BaseEvent := BaseEventFromRepo event, Domain := "" })
      "ORG-BngB2" "unable to unmarshal org domain removed" :=
  ⟨DomainAddedEventMapper_surfaces event,
    DomainVerificationAddedEventMapper_surfaces codecs event,
    DomainVerificationFailedEventMapper_surfaces event, DomainVerifiedEventMapper_surfaces event,
    DomainPrimarySetEventMapper_surfaces event, DomainRemovedEventMapper_surfaces event⟩

end Org

/-! ## The decoder stays in step with the scanner -/

namespace EncodingJSON

theorem saveError_ne_panic (saved err : Option JSONError) (h1 : saved ≠ some .phasePanic)
    (h2 : err ≠ some .phasePanic) : saveError saved err ≠ some .phasePanic := by
  unfold saveError
  split
  · exact h1
  · exact h2

/-- A string is stored without the failure of `unquoteBytes`. -/
theorem storeString_no_panic (v : Value) (cur : String) (hv : v.Wf) :
    (storeString v cur).2 ≠ some .phasePanic := by
  cases hv with
  | string raw hu =>
    obtain ⟨s, hs⟩ := unquoteBytes_of_units raw hu
    simp [storeString, hs]
  | null => simp [storeString]
  | bool b => simp [storeString]
  | number lit => simp [storeString]
  | array elems _ => simp [storeString]
  | object members _ _ => simp [storeString]

theorem decodeObject_no_panic {σ : Type} (fields : List (StructField σ))
    (members : List (List Char × Value)) (hkeys : ∀ m ∈ members, Units m.1)
    (hvals : ∀ m ∈ members, m.2.Wf)
    (hstores : ∀ f ∈ fields, ∀ v s, v.Wf → (f.store v s).2 ≠ some .phasePanic)
    (s : σ) (saved : Option JSONError) (hsaved : saved ≠ some .phasePanic) :
    (decodeObject fields members (s, saved)).2 ≠ some .phasePanic := by
  induction members generalizing s saved with
  | nil => exact hsaved
  | cons m rest ih =>
    obtain ⟨rawKey, v⟩ := m
    obtain ⟨key, hkey⟩ := unquoteBytes_of_units rawKey (hkeys (rawKey, v) (by simp))
    have hk : ∀ m ∈ rest, Units m.1 := fun m hm => hkeys m (by simp [hm])
    have hv : ∀ m ∈ rest, m.2.Wf := fun m hm => hvals m (by simp [hm])
    cases hf : findField fields key with
    | none =>
      simp only [decodeObject, hkey, hf]
      exact ih hk hv s saved hsaved
    | some f =>
      simp only [decodeObject, hkey, hf]
      exact ih hk hv _ _ (saveError_ne_panic _ _ hsaved
        (hstores f (findField_some fields key f hf).1 v s (hvals (rawKey, v) (by simp))))

/-- The failure that the decoder raises when it cannot unquote a string the
scanner let through never occurs: `Unmarshal` returns no error, a syntax error
or an error saved by a store. -/
theorem Unmarshal_no_panic {σ : Type} (fields : List (StructField σ)) (data : List Char) (s : σ)
    (hstores : ∀ f ∈ fields, ∀ v s, v.Wf → (f.store v s).2 ≠ some .phasePanic) :
    (Unmarshal fields data s).2 ≠ some .phasePanic := by
  unfold Unmarshal
  cases hc : checkValid data with
  | error e => simp
  | ok v =>
    have hwf := (checkValid_spec data).2 v hc
    cases hwf with
    | object members hk hv =>
      exact decodeObject_no_panic fields members hk hv hstores s none (by simp)
    | null => simp [decodeStruct]
    | bool b => simp [decodeStruct]
    | number lit => simp [decodeStruct]
    | string raw _ => simp [decodeStruct]
    | array elems _ => simp [decodeStruct]

end EncodingJSON

namespace Org

open EncodingJSON

/-- For no stored event does the decoding of an event with the single field
`domain` end in the failure of `unquoteBytes`. -/
theorem domain_mappers_no_panic (event : Event) :
    (Unmarshal DomainAddedEvent.fields event.Data.toList
      { BaseEvent := BaseEventFromRepo event, Domain := "" }).2 ≠ some .phasePanic ∧
    (Unmarshal DomainVerificationFailedEvent.fields event.Data.toList
      { BaseEvent := BaseEventFromRepo event, Domain := "" }).2 ≠ some .phasePanic ∧
    (Unmarshal DomainVerifiedEvent.fields event.Data.toList
      { BaseEvent := BaseEventFromRepo event, Domain := "" }).2 ≠ some .phasePanic ∧
    (Unmarshal DomainPrimarySetEvent.fields event.Data.toList
      { BaseEvent := BaseEventFromRepo event, Domain := "" }).2 ≠ some .phasePanic ∧
    (Unmarshal DomainRemovedEvent.fields event.Data.toList
      { BaseEvent := BaseEventFromRepo event, Domain := "" }).2 ≠ some .phasePanic := by
  refine ⟨?_, ?_, ?_, ?_, ?_⟩
  · apply Unmarshal_no_panic
    intro f hf v s hv
    simp only [DomainAddedEvent.fields, List.mem_singleton] at hf
    subst hf
    exact storeString_no_panic v _ hv
  · apply Unmarshal_no_panic
    intro f hf v s hv
    simp only [DomainVerificationFailedEvent.fields, List.mem_singleton] at hf
    subst hf
    exact storeString_no_panic v _ hv
  · apply Unmarshal_no_panic
    intro f hf v s hv
    simp only [DomainVerifiedEvent.fields, List.mem_singleton] at hf
    subst hf
    exact storeString_no_panic v _ hv
  · apply Unmarshal_no_panic
    intro f hf v s hv
    simp only [DomainPrimarySetEvent.fields, List.mem_singleton] at hf
    subst hf
    exact storeString_no_panic v _ hv
  · apply Unmarshal_no_panic
    intro f hf v s hv
    simp only [DomainRemovedEvent.fields, List.mem_singleton] at hf
    subst hf
    exact storeString_no_panic v _ hv

end Org

/-! ## Unknown keys are skipped, known keys are stored -/

namespace EncodingJSON

/-- A key selects no field exactly when it equals no field name under the
fold function. -/
theorem findField_none_iff {σ : Type} (fields : List (StructField σ)) (key : List Char) :
    findField fields key = none ↔ ∀ f ∈ fields, simpleLetterEqualFold f.name key = false := by
  constructor
  · intro h f hf
    unfold findField at h
    split at h
    · simp at h
    · have := List.find?_eq_none.mp h f hf
      simpa using this
  · exact findField_none fields key

/-- What `selects` tells of a key is what `findField` does with it, for a
struct with a single field. -/
theorem selects_iff_findField {σ : Type} (name : String) (f : StructField σ)
    (hname : f.name = name.toList) (rawKey key : List Char)
    (hkey : unquoteBytes rawKey = some key) :
    selects name rawKey = true ↔ findField [f] key ≠ none := by
  rw [Ne, findField_none_iff]
  simp [selects, hkey, hname]

/-- The members of an object that select no field can be left out. -/
theorem decodeObject_filter {σ : Type} (fields : List (StructField σ))
    (p : List Char × Value → Bool) (members : List (List Char × Value))
    (hkeys : ∀ m ∈ members, Units m.1)
    (hp : ∀ m ∈ members, ∀ key, unquoteBytes m.1 = some key →
      (p m = true ↔ findField fields key ≠ none))
    (acc : σ × Option JSONError) :
    decodeObject fields (members.filter p) acc = decodeObject fields members acc := by
  induction members generalizing acc with
  | nil => rfl
  | cons m rest ih =>
    obtain ⟨s, saved⟩ := acc
    obtain ⟨key, hkey⟩ := unquoteBytes_of_units m.1 (hkeys m (by simp))
    have hk : ∀ m ∈ rest, Units m.1 := fun m hm => hkeys m (by simp [hm])
    have hr : ∀ m ∈ rest, ∀ key, unquoteBytes m.1 = some key →
        (p m = true ↔ findField fields key ≠ none) := fun m hm => hp m (by simp [hm])
    have hm := hp m (by simp) key hkey
    obtain ⟨rawKey, v⟩ := m
    cases hf : findField fields key with
    | none =>
      have hpm : ¬ p (rawKey, v) = true := by
        intro h
        exact (hm.mp h) hf
      rw [List.filter_cons_of_neg hpm]
      simp only [decodeObject, hkey, hf]
      exact ih hk hr _
    | some f =>
      have hpm : p (rawKey, v) = true := hm.mpr (by simp [hf])
      rw [List.filter_cons_of_pos hpm]
      simp only [decodeObject, hkey, hf]
      exact ih hk hr _

/-- Two payloads that are objects with the same members of known key, in the
same order, are decoded alike. -/
theorem Unmarshal_filter {σ : Type} (fields : List (StructField σ))
    (p : List Char × Value → Bool) (data1 data2 : List Char)
    (members1 members2 : List (List Char × Value)) (s : σ)
    (h1 : checkValid data1 = .ok (.object members1))
    (h2 : checkValid data2 = .ok (.object members2))
    (hp : ∀ (m : List Char × Value) key, unquoteBytes m.1 = some key →
      (p m = true ↔ findField fields key ≠ none))
    (hfilter : members1.filter p = members2.filter p) :
    Unmarshal fields data1 s = Unmarshal fields data2 s := by
  have hw1 := (checkValid_spec data1).2 _ h1
  have hw2 := (checkValid_spec data2).2 _ h2
  cases hw1 with
  | object _ hk1 _ =>
    cases hw2 with
    | object _ hk2 _ =>
      simp only [Unmarshal, h1, h2, decodeStruct]
      rw [← decodeObject_filter fields p members1 hk1 (fun m _ => hp m),
        ← decodeObject_filter fields p members2 hk2 (fun m _ => hp m), hfilter]

/-- An error once saved is the error of the decoding. -/
theorem decodeObject_saved {σ : Type} (fields : List (StructField σ))
    (members : List (List Char × Value)) (s : σ) (e : JSONError) :
    (decodeObject fields members (s, some e)).2 = some e := by
  induction members generalizing s with
  | nil => rfl
  | cons m rest ih =>
    obtain ⟨rawKey, v⟩ := m
    cases hkey : unquoteBytes rawKey with
    | none => simp [decodeObject, hkey, saveError]
    | some key =>
      cases hf : findField fields key with
      | none =>
        simp only [decodeObject, hkey, hf]
        exact ih s
      | some f =>
        simp only [decodeObject, hkey, hf, saveError]
        exact ih _

theorem storeString_fits (v : Value) (cur : String) (hv : v.Wf) (hf : fitsString v = true) :
    (storeString v cur).2 = none := by
  cases hv with
  | string raw hu =>
    obtain ⟨s, hs⟩ := unquoteBytes_of_units raw hu
    simp [storeString, hs]
  | null => rfl
  | bool b => simp [fitsString] at hf
  | number lit => simp [fitsString] at hf
  | array elems _ => simp [fitsString] at hf
  | object members _ _ => simp [fitsString] at hf

theorem storeString_unfit (v : Value) (cur : String) (hf : fitsString v = false) :
    (storeString v cur).2.isSome = true := by
  cases v with
  | string raw => simp [fitsString] at hf
  | null => simp [fitsString] at hf
  | bool b => rfl
  | number lit => rfl
  | array elems => rfl
  | object members => rfl

/-- The field that a key selects in a struct with a single field. -/
theorem findField_single {σ : Type} (f : StructField σ) (key : List Char) :
    findField [f] key = if simpleLetterEqualFold f.name key = true then some f else none := by
  split
  · rename_i h
    cases hf : findField [f] key with
    | none =>
      have := (findField_none_iff [f] key).mp hf f (by simp)
      rw [h] at this
      simp at this
    | some g =>
      have := (findField_some [f] key g hf).1
      simp only [List.mem_singleton] at this
      rw [this]
  · rename_i h
    exact findField_none [f] key (by simpa using h)

/-- The decoding of an object into a struct with a single string field, when
every value under a key that selects the field is a string or `null`: no error
is saved, and the field holds what `stringOf` tells. -/
theorem decodeObject_string_ok {σ : Type} (name : String) (get : σ → String)
    (set : σ → String → σ) (hss : ∀ e d d2, set (set e d) d2 = set e d2)
    (hsg : ∀ e, set e (get e) = e) (hgs : ∀ e d, get (set e d) = d)
    (members : List (List Char × Value)) (hkeys : ∀ m ∈ members, Units m.1)
    (hvals : ∀ m ∈ members, m.2.Wf)
    (hfit : ∀ m ∈ members, selects name m.1 = true → fitsString m.2 = true) (s : σ) :
    decodeObject (stringField name get set) members (s, none)
      = (set s (stringOf name members (get s)), none) := by
  induction members generalizing s with
  | nil => simp [decodeObject, stringOf, hsg]
  | cons m rest ih =>
    obtain ⟨rawKey, v⟩ := m
    obtain ⟨key, hkey⟩ := unquoteBytes_of_units rawKey (hkeys (rawKey, v) (by simp))
    have hk : ∀ m ∈ rest, Units m.1 := fun m hm => hkeys m (by simp [hm])
    have hv : ∀ m ∈ rest, m.2.Wf := fun m hm => hvals m (by simp [hm])
    have hfr : ∀ m ∈ rest, selects name m.1 = true → fitsString m.2 = true :=
      fun m hm => hfit m (by simp [hm])
    have hsel : selects name rawKey = simpleLetterEqualFold name.toList key := by
      simp [selects, hkey]
    simp only [stringField] at ih ⊢
    simp only [decodeObject, hkey, findField_single, stringOf, List.foldl_cons]
    cases hfold : simpleLetterEqualFold name.toList key with
    | false =>
      simp only [hsel, hfold, Bool.false_eq_true, ↓reduceIte]
      exact ih hk hv hfr s
    | true =>
      have hfits := hfit (rawKey, v) (by simp) (by rw [hsel, hfold])
      have herr := storeString_fits v (get s) (hvals (rawKey, v) (by simp)) hfits
      simp only [hsel, hfold, ↓reduceIte, herr, saveError]
      rw [ih hk hv hfr, hss, hgs]
      rfl

/-- The decoding of an object into a struct with a single string field saves
an error when some value under a key that selects the field is neither a
string nor `null`. -/
theorem decodeObject_string_err {σ : Type} (name : String) (get : σ → String)
    (set : σ → String → σ) (members : List (List Char × Value))
    (hkeys : ∀ m ∈ members, Units m.1)
    (hunfit : ∃ m ∈ members, selects name m.1 = true ∧ fitsString m.2 = false)
    (s : σ) (saved : Option JSONError) :
    (decodeObject (stringField name get set) members (s, saved)).2.isSome = true := by
  cases saved with
  | some e => simp [decodeObject_saved]
  | none =>
    induction members generalizing s with
    | nil =>
      obtain ⟨m, hm, _⟩ := hunfit
      simp at hm
    | cons m rest ih =>
      obtain ⟨rawKey, v⟩ := m
      obtain ⟨key, hkey⟩ := unquoteBytes_of_units rawKey (hkeys (rawKey, v) (by simp))
      have hk : ∀ m ∈ rest, Units m.1 := fun m hm => hkeys m (by simp [hm])
      have hsel : selects name rawKey = simpleLetterEqualFold name.toList key := by
        simp [selects, hkey]
      simp only [stringField] at ih ⊢
      simp only [decodeObject, hkey, findField_single]
      cases hfold : simpleLetterEqualFold name.toList key with
      | false =>
        simp only [Bool.false_eq_true, ↓reduceIte]
        apply ih hk
        obtain ⟨m, hm, hs, hf⟩ := hunfit
        simp only [List.mem_cons] at hm
        rcases hm with rfl | hm
        · rw [hsel, hfold] at hs
          simp at hs
        · exact ⟨m, hm, hs, hf⟩
      | true =>
        simp only [↓reduceIte]
        by_cases hfits : fitsString v = true
        · cases herr : (storeString v (get s)).2 with
          | none =>
            simp only [saveError]
            apply ih hk
            obtain ⟨m, hm, hs, hf⟩ := hunfit
            simp only [List.mem_cons] at hm
            rcases hm with rfl | hm
            · rw [hf] at hfits
              simp at hfits
            · exact ⟨m, hm, hs, hf⟩
          | some e => simp [saveError, decodeObject_saved]
        · have herr := storeString_unfit v (get s) (by simpa using hfits)
          obtain ⟨e, he⟩ := Option.isSome_iff_exists.mp herr
          simp [he, saveError, decodeObject_saved]

end EncodingJSON

namespace EncodingJSON

/-- A payload that is an object, decoded into a struct with a single string
field, when every value under a key that selects the field is a string or
`null`. -/
theorem Unmarshal_string_ok {σ : Type} (name : String) (get : σ → String)
    (set : σ → String → σ) (hss : ∀ e d d2, set (set e d) d2 = set e d2)
    (hsg : ∀ e, set e (get e) = e) (hgs : ∀ e d, get (set e d) = d)
    (data : List Char) (members : List (List Char × Value))
    (hobj : checkValid data = .ok (.object members))
    (hfit : ∀ m ∈ members, selects name m.1 = true → fitsString m.2 = true) (s : σ) :
    Unmarshal (stringField name get set) data s
      = (set s (stringOf name members (get s)), none) := by
  have hwf := (checkValid_spec data).2 _ hobj
  cases hwf with
  | object _ hk hv =>
    simp only [Unmarshal, hobj, decodeStruct]
    exact decodeObject_string_ok name get set hss hsg hgs members hk hv hfit s

/-- A payload that is an object, decoded into a struct with a single string
field, when some value under a key that selects the field is neither a string
nor `null`. -/
theorem Unmarshal_string_err {σ : Type} (name : String) (get : σ → String)
    (set : σ → String → σ) (data : List Char) (members : List (List Char × Value))
    (hobj : checkValid data = .ok (.object members))
    (hunfit : ∃ m ∈ members, selects name m.1 = true ∧ fitsString m.2 = false) (s : σ) :
    (Unmarshal (stringField name get set) data s).2.isSome = true := by
  have hwf := (checkValid_spec data).2 _ hobj
  cases hwf with
  | object _ hk _ =>
    simp only [Unmarshal, hobj, decodeStruct]
    exact decodeObject_string_err name get set members hk hunfit s none

/-- A string field that no key selects keeps what it held. -/
theorem stringOf_absent (name : String) (members : List (List Char × Value)) (cur : String)
    (hno : ∀ m ∈ members, selects name m.1 = false) : stringOf name members cur = cur := by
  induction members generalizing cur with
  | nil => rfl
  | cons m rest ih =>
    simp only [stringOf, List.foldl_cons, hno m (by simp), Bool.false_eq_true, ↓reduceIte]
    exact ih cur (fun m hm => hno m (by simp [hm]))

/-- An error of the decoding of an object is the error of the store of a
value into the field that its key selects. -/
theorem decodeObject_error_source {σ : Type} (fields : List (StructField σ))
    (members : List (List Char × Value)) (hkeys : ∀ m ∈ members, Units m.1) (s : σ)
    (h : (decodeObject fields members (s, none)).2.isSome = true) :
    ∃ m ∈ members, ∃ key f s2, unquoteBytes m.1 = some key ∧
      findField fields key = some f ∧
      (f.store m.2 s2).2.isSome = true := by
  induction members generalizing s with
  | nil => simp [decodeObject] at h
  | cons m rest ih =>
    obtain ⟨rawKey, v⟩ := m
    obtain ⟨key, hkey⟩ := unquoteBytes_of_units rawKey (hkeys (rawKey, v) (by simp))
    have hk : ∀ m ∈ rest, Units m.1 := fun m hm => hkeys m (by simp [hm])
    cases hf : findField fields key with
    | none =>
      simp only [decodeObject, hkey, hf] at h
      obtain ⟨m, hm, rest2⟩ := ih hk s h
      exact ⟨m, by simp [hm], rest2⟩
    | some f =>
      cases herr : (f.store v s).2 with
      | some e => exact ⟨(rawKey, v), by simp, key, f, s, hkey, hf, by simp [herr]⟩
      | none =>
        simp only [decodeObject, hkey, hf, herr, saveError] at h
        obtain ⟨m, hm, rest2⟩ := ih hk _ h
        exact ⟨m, by simp [hm], rest2⟩

end EncodingJSON

namespace Org

open EncodingJSON

theorem DomainAddedEventMapper_stores (event : Event)
    (members : List (List Char × Value))
    (hobj : checkValid event.Data.toList = .ok (.object members))
    (hfit : ∀ m ∈ members, selects "domain" m.1 = true → fitsString m.2 = true) :
    DomainAddedEventMapper event
      = (some { BaseEvent := BaseEventFromRepo event
                Domain := stringOf "domain" members "" }, none) := by
  have := Unmarshal_string_ok "domain" (fun e : DomainAddedEvent => e.Domain)
    (fun e d => { e with Domain := d }) (fun _ _ _ => rfl) (fun _ => rfl) (fun _ _ => rfl)
    event.Data.toList members hobj hfit
    { BaseEvent := BaseEventFromRepo event, Domain := "" }
  have hfields : DomainAddedEvent.fields
      = stringField "domain" (fun e : DomainAddedEvent => e.Domain)
          (fun e d => { e with Domain := d }) := rfl
  simp only [DomainAddedEventMapper, hfields, this]

theorem DomainAddedEventMapper_rejects (event : Event)
    (members : List (List Char × Value))
    (hobj : checkValid event.Data.toList = .ok (.object members))
    (hunfit : ∃ m ∈ members, selects "domain" m.1 = true ∧ fitsString m.2 = false) :
    (DomainAddedEventMapper event).2.isSome = true := by
  have := Unmarshal_string_err "domain" (fun e : DomainAddedEvent => e.Domain)
    (fun e d => { e with Domain := d }) event.Data.toList members hobj hunfit
    { BaseEvent := BaseEventFromRepo event, Domain := "" }
  exact (DomainAddedEventMapper_surfaces event).1.mpr this

theorem DomainAddedEventMapper_known (event event2 : Event)
    (members members2 : List (List Char × Value))
    (hobj : checkValid event.Data.toList = .ok (.object members))
    (hobj2 : checkValid event2.Data.toList = .ok (.object members2))
    (hbase : BaseEventFromRepo event2 = BaseEventFromRepo event)
    (hfilter : members2.filter (fun m => selects "domain" m.1)
      = members.filter (fun m => selects "domain" m.1)) :
    DomainAddedEventMapper event2 = DomainAddedEventMapper event := by
  have := Unmarshal_filter DomainAddedEvent.fields (fun m => selects "domain" m.1)
    event2.Data.toList event.Data.toList members2 members
    { BaseEvent := BaseEventFromRepo event, Domain := "" } hobj2 hobj
    (fun m key hkey => selects_iff_findField "domain" _ rfl m.1 key hkey) hfilter
  simp only [DomainAddedEventMapper, hbase, this]

theorem DomainVerificationFailedEventMapper_stores (event : Event)
    (members : List (List Char × Value))
    (hobj : checkValid event.Data.toList = .ok (.object members))
    (hfit : ∀ m ∈ members, selects "domain" m.1 = true → fitsString m.2 = true) :
    DomainVerificationFailedEventMapper event
      = (some { BaseEvent := BaseEventFromRepo event
                Domain := stringOf "domain" members "" }, none) := by
  have := Unmarshal_string_ok "domain" (fun e : DomainVerificationFailedEvent => e.Domain)
    (fun e d => { e with Domain := d }) (fun _ _ _ => rfl) (fun _ => rfl) (fun _ _ => rfl)
    event.Data.toList members hobj hfit
    { BaseEvent := BaseEventFromRepo event, Domain := "" }
  have hfields : DomainVerificationFailedEvent.fields
      = stringField "domain" (fun e : DomainVerificationFailedEvent => e.Domain)
          (fun e d => { e with Domain := d }) := rfl
  simp only [DomainVerificationFailedEventMapper, hfields, this]

theorem DomainVerificationFailedEventMapper_rejects (event : Event)
    (members : List (List Char × Value))
    (hobj : checkValid event.Data.toList = .ok (.object members))
    (hunfit : ∃ m ∈ members, selects "domain" m.1 = true ∧ fitsString m.2 = false) :
    (DomainVerificationFailedEventMapper event).2.isSome = true := by
  have := Unmarshal_string_err "domain" (fun e : DomainVerificationFailedEvent => e.Domain)
    (fun e d => { e with Domain := d }) event.Data.toList members hobj hunfit
    { BaseEvent := BaseEventFromRepo event, Domain := "" }
  exact (DomainVerificationFailedEventMapper_surfaces event).1.mpr this

theorem DomainVerificationFailedEventMapper_known (event event2 : Event)
    (members members2 : List (List Char × Value))
    (hobj : checkValid event.Data.toList = .ok (.object members))
    (hobj2 : checkValid event2.Data.toList = .ok (.object members2))
    (hbase : BaseEventFromRepo event2 = BaseEventFromRepo event)
    (hfilter : members2.filter (fun m => selects "domain" m.1)
      = members.filter (fun m => selects "domain" m.1)) :
    DomainVerificationFailedEventMapper event2 = DomainVerificationFailedEventMapper event := by
  have := Unmarshal_filter DomainVerificationFailedEvent.fields (fun m => selects "domain" m.1)
    event2.Data.toList event.Data.toList members2 members
    { BaseEvent := BaseEventFromRepo event, Domain := "" } hobj2 hobj
    (fun m key hkey => selects_iff_findField "domain" _ rfl m.1 key hkey) hfilter
  simp only [DomainVerificationFailedEventMapper, hbase, this]

theorem DomainVerifiedEventMapper_stores (event : Event)
    (members : List (List Char × Value))
    (hobj : checkValid event.Data.toList = .ok (.object members))
    (hfit : ∀ m ∈ members, selects "domain" m.1 = true → fitsString m.2 = true) :
    DomainVerifiedEventMapper event
      = (some { BaseEvent := BaseEventFromRepo event
                Domain := stringOf "domain" members "" }, none) := by
  have := Unmarshal_string_ok "domain" (fun e : DomainVerifiedEvent => e.Domain)
    (fun e d => { e with Domain := d }) (fun _ _ _ => rfl) (fun _ => rfl) (fun _ _ => rfl)
    event.Data.toList members hobj hfit
    { BaseEvent := BaseEventFromRepo event, Domain := "" }
  have hfields : DomainVerifiedEvent.fields
      = stringField "domain" (fun e : DomainVerifiedEvent => e.Domain)
          (fun e d => { e with Domain := d }) := rfl
  simp only [DomainVerifiedEventMapper, hfields, this]

theorem DomainVerifiedEventMapper_rejects (event : Event)
    (members : List (List Char × Value))
    (hobj : checkValid event.Data.toList = .ok (.object members))
    (hunfit : ∃ m ∈ members, selects "domain" m.1 = true ∧ fitsString m.2 = false) :
    (DomainVerifiedEventMapper event).2.isSome = true := by
  have := Unmarshal_string_err "domain" (fun e : DomainVerifiedEvent => e.Domain)
    (fun e d => { e with Domain := d }) event.Data.toList members hobj hunfit
    { BaseEvent := BaseEventFromRepo event, Domain := "" }
  exact (DomainVerifiedEventMapper_surfaces event).1.mpr this

theorem DomainVerifiedEventMapper_known (event event2 : Event)
    (members members2 : List (List Char × Value))
    (hobj : checkValid event.Data.toList = .ok (.object members))
    (hobj2 : checkValid event2.Data.toList = .ok (.object members2))
    (hbase : BaseEventFromRepo event2 = BaseEventFromRepo event)
    (hfilter : members2.filter (fun m => selects "domain" m.1)
      = members.filter (fun m => selects "domain" m.1)) :
    DomainVerifiedEventMapper event2 = DomainVerifiedEventMapper event := by
  have := Unmarshal_filter DomainVerifiedEvent.fields (fun m => selects "domain" m.1)
    event2.Data.toList event.Data.toList members2 members
    { BaseEvent := BaseEventFromRepo event, Domain := "" } hobj2 hobj
    (fun m key hkey => selects_iff_findField "domain" _ rfl m.1 key hkey) hfilter
  simp only [DomainVerifiedEventMapper, hbase, this]

theorem DomainPrimarySetEventMapper_stores (event : Event)
    (members : List (List Char × Value))
    (hobj : checkValid event.Data.toList = .ok (.object members))
    (hfit : ∀ m ∈ members, selects "domain" m.1 = true → fitsString m.2 = true) :
    DomainPrimarySetEventMapper event
      = (some { BaseEvent := BaseEventFromRepo event
                Domain := stringOf "domain" members "" }, none) := by
  have := Unmarshal_string_ok "domain" (fun e : DomainPrimarySetEvent => e.Domain)
    (fun e d => { e with Domain := d }) (fun _ _ _ => rfl) (fun _ => rfl) (fun _ _ => rfl)
    event.Data.toList members hobj hfit
    { BaseEvent := BaseEventFromRepo event, Domain := "" }
  have hfields : DomainPrimarySetEvent.fields
      = stringField "domain" (fun e : DomainPrimarySetEvent => e.Domain)
          (fun e d => { e with Domain := d }) := rfl
  simp only [DomainPrimarySetEventMapper, hfields, this]

theorem DomainPrimarySetEventMapper_rejects (event : Event)
    (members : List (List Char × Value))
    (hobj : checkValid event.Data.toList = .ok (.object members))
    (hunfit : ∃ m ∈ members, selects "domain" m.1 = true ∧ fitsString m.2 = false) :
    (DomainPrimarySetEventMapper event).2.isSome = true := by
  have := Unmarshal_string_err "domain" (fun e : DomainPrimarySetEvent => e.Domain)
    (fun e d => { e with Domain := d }) event.Data.toList members hobj hunfit
    { BaseEvent := BaseEventFromRepo event, Domain := "" }
  exact (DomainPrimarySetEventMapper_surfaces event).1.mpr this

theorem DomainPrimarySetEventMapper_known (event event2 : Event)
    (members members2 : List (List Char × Value))
    (hobj : checkValid event.Data.toList = .ok (.object members))
    (hobj2 : checkValid event2.Data.toList = .ok (.object members2))
    (hbase : BaseEventFromRepo event2 = BaseEventFromRepo event)
    (hfilter : members2.filter (fun m => selects "domain" m.1)
      = members.filter (fun m => selects "domain" m.1)) :
    DomainPrimarySetEventMapper event2 = DomainPrimarySetEventMapper event := by
  have := Unmarshal_filter DomainPrimarySetEvent.fields (fun m => selects "domain" m.1)
    event2.Data.toList event.Data.toList members2 members
    { BaseEvent := BaseEventFromRepo event, Domain := "" } hobj2 hobj
    (fun m key hkey => selects_iff_findField "domain" _ rfl m.1 key hkey) hfilter
  simp only [DomainPrimarySetEventMapper, hbase, this]

theorem DomainRemovedEventMapper_stores (event : Event)
    (members : List (List Char × Value))
    (hobj : checkValid event.Data.toList = .ok (.object members))
    (hfit : ∀ m ∈ members, selects "domain" m.1 = true → fitsString m.2 = true) :
    DomainRemovedEventMapper event
      = (some { BaseEvent := BaseEventFromRepo event
                Domain := stringOf "domain" members "" }, none) := by
  have := Unmarshal_string_ok "domain" (fun e : DomainRemovedEvent => e.Domain)
    (fun e d => { e with Domain := d }) (fun _ _ _ => rfl) (fun _ => rfl) (fun _ _ => rfl)
    event.Data.toList members hobj hfit
    { BaseEvent := BaseEventFromRepo event, Domain := "" }
  have hfields : DomainRemovedEvent.fields
      = stringField "domain" (fun e : DomainRemovedEvent => e.Domain)
          (fun e d => { e with Domain := d }) := rfl
  simp only [DomainRemovedEventMapper, hfields, this]

theorem DomainRemovedEventMapper_rejects (event : Event)
    (members : List (List Char × Value))
    (hobj : checkValid event.Data.toList = .ok (.object members))
    (hunfit : ∃ m ∈ members, selects "domain" m.1 = true ∧ fitsString m.2 = false) :
    (DomainRemovedEventMapper event).2.isSome = true := by
  have := Unmarshal_string_err "domain" (fun e : DomainRemovedEvent => e.Domain)
    (fun e d => { e with Domain := d }) event.Data.toList members hobj hunfit
    { BaseEvent := BaseEventFromRepo event, Domain := "" }
  exact (DomainRemovedEventMapper_surfaces event).1.mpr this

theorem DomainRemovedEventMapper_known (event event2 : Event)
    (members members2 : List (List Char × Value))
    (hobj : checkValid event.Data.toList = .ok (.object members))
    (hobj2 : checkValid event2.Data.toList = .ok (.object members2))
    (hbase : BaseEventFromRepo event2 = BaseEventFromRepo event)
    (hfilter : members2.filter (fun m => selects "domain" m.1)
      = members.filter (fun m => selects "domain" m.1)) :
    DomainRemovedEventMapper event2 = DomainRemovedEventMapper event := by
  have := Unmarshal_filter DomainRemovedEvent.fields (fun m => selects "domain" m.1)
    event2.Data.toList event.Data.toList members2 members
    { BaseEvent := BaseEventFromRepo event, Domain := "" } hobj2 hobj
    (fun m key hkey => selects_iff_findField "domain" _ rfl m.1 key hkey) hfilter
  simp only [DomainRemovedEventMapper, hbase, this]

/-- The keys that select a field of `DomainVerificationAddedEvent`. -/
theorem selects_iff_findField_verification {VT CV : Type} (codecs : Codecs VT CV)
    (rawKey key : List Char) (hkey : unquoteBytes rawKey = some key) :
    (selects "domain" rawKey || selects "validationType" rawKey
        || selects "validationCode" rawKey) = true ↔
      findField (DomainVerificationAddedEvent.fields codecs) key ≠ none := by
  rw [Ne, findField_none_iff]
  simp only [selects, hkey, DomainVerificationAddedEvent.fields, List.mem_cons,
    List.mem_singleton, List.not_mem_nil, or_false, forall_eq_or_imp, forall_eq]
  generalize simpleLetterEqualFold "domain".toList key = a
  generalize simpleLetterEqualFold "validationType".toList key = b
  generalize simpleLetterEqualFold "validationCode".toList key = c
  cases a <;> cases b <;> cases c <;> simp

theorem DomainVerificationAddedEventMapper_known {VT CV : Type} (codecs : Codecs VT CV)
    (event event2 : Event) (members members2 : List (List Char × Value))
    (hobj : checkValid event.Data.toList = .ok (.object members))
    (hobj2 : checkValid event2.Data.toList = .ok (.object members2))
    (hbase : BaseEventFromRepo event2 = BaseEventFromRepo event)
    (hfilter : members2.filter (fun m => selects "domain" m.1
        || selects "validationType" m.1 || selects "validationCode" m.1)
      = members.filter (fun m => selects "domain" m.1
        || selects "validationType" m.1 || selects "validationCode" m.1)) :
    DomainVerificationAddedEventMapper codecs event2
      = DomainVerificationAddedEventMapper codecs event := by
  have := Unmarshal_filter (DomainVerificationAddedEvent.fields codecs)
    (fun m => selects "domain" m.1 || selects "validationType" m.1
      || selects "validationCode" m.1)
    event2.Data.toList event.Data.toList members2 members
    { BaseEvent := BaseEventFromRepo event, Domain := ""
      ValidationType := codecs.zeroValidationType, ValidationCode := none } hobj2 hobj
    (fun m key hkey => selects_iff_findField_verification codecs m.1 key hkey) hfilter
  simp only [DomainVerificationAddedEventMapper, hbase, this]

theorem DomainVerificationAddedEventMapper_error_source {VT CV : Type}
    (codecs : Codecs VT CV) (event : Event) (members : List (List Char × Value))
    (hobj : checkValid event.Data.toList = .ok (.object members))
    (h : (DomainVerificationAddedEventMapper codecs event).2.isSome = true) :
    ∃ m ∈ members, ∃ key f s, unquoteBytes m.1 = some key ∧
      findField (DomainVerificationAddedEvent.fields codecs) key = some f ∧
      (f.store m.2 s).2.isSome = true := by
  have hr := (DomainVerificationAddedEventMapper_surfaces codecs event).1.mp h
  have hwf := (checkValid_spec event.Data.toList).2 _ hobj
  cases hwf with
  | object _ hk _ =>
    simp only [Unmarshal, hobj, decodeStruct] at hr
    exact decodeObject_error_source _ members hk _ hr

end Org

namespace Org

open EncodingJSON

/-- When `DomainVerificationAddedEventMapper` returns an event, the envelope
of the event is that of the stored event, and a field that no key of the
payload selects has its zero value. -/
theorem DomainVerificationAddedEventMapper_absent {VT CV : Type} (codecs : Codecs VT CV)
    (event : Event) (members : List (List Char × Value))
    (hobj : checkValid event.Data.toList = .ok (.object members))
    (e : DomainVerificationAddedEvent VT CV)
    (he : DomainVerificationAddedEventMapper codecs event = (some e, none)) :
    e.BaseEvent = BaseEventFromRepo event ∧
    ((∀ m ∈ members, selects "domain" m.1 = false) → e.Domain = "") ∧
    ((∀ m ∈ members, selects "validationType" m.1 = false) →
      e.ValidationType = codecs.zeroValidationType) ∧
    ((∀ m ∈ members, selects "validationCode" m.1 = false) → e.ValidationCode = none) := by
  have hsurf := DomainVerificationAddedEventMapper_surfaces codecs event
  obtain ⟨_, heq⟩ := decoded_of_surfaces _ _ _ _ hsurf e he
  subst heq
  refine ⟨?_, ?_, ?_, ?_⟩
  · apply Unmarshal_keeps_all (DomainVerificationAddedEvent.fields codecs)
      (fun s => s.BaseEvent = BaseEventFromRepo event)
    · intro f hf v s hs
      simp only [DomainVerificationAddedEvent.fields, List.mem_cons, List.mem_singleton,
        List.not_mem_nil, or_false] at hf
      rcases hf with hf | hf | hf <;> subst hf <;> exact hs
    · rfl
  · intro hno
    apply Unmarshal_keeps (DomainVerificationAddedEvent.fields codecs)
      (fun s => s.Domain = "") _ members _ hobj
    · intro m hm key f hkey hf s hs
      obtain ⟨hmem, hfold⟩ := findField_some _ key f hf
      simp only [DomainVerificationAddedEvent.fields, List.mem_cons, List.mem_singleton,
        List.not_mem_nil, or_false] at hmem
      rcases hmem with hmem | hmem | hmem <;> subst hmem
      · rw [fold_of_selects "domain" m.1 key (hno m hm) hkey] at hfold
        simp at hfold
      · exact hs
      · exact hs
    · rfl
  · intro hno
    apply Unmarshal_keeps (DomainVerificationAddedEvent.fields codecs)
      (fun s => s.ValidationType = codecs.zeroValidationType) _ members _ hobj
    · intro m hm key f hkey hf s hs
      obtain ⟨hmem, hfold⟩ := findField_some _ key f hf
      simp only [DomainVerificationAddedEvent.fields, List.mem_cons, List.mem_singleton,
        List.not_mem_nil, or_false] at hmem
      rcases hmem with hmem | hmem | hmem <;> subst hmem
      · exact hs
      · rw [fold_of_selects "validationType" m.1 key (hno m hm) hkey] at hfold
        simp at hfold
      · exact hs
    · rfl
  · intro hno
    apply Unmarshal_keeps (DomainVerificationAddedEvent.fields codecs)
      (fun s => s.ValidationCode = none) _ members _ hobj
    · intro m hm key f hkey hf s hs
      obtain ⟨hmem, hfold⟩ := findField_some _ key f hf
      simp only [DomainVerificationAddedEvent.fields, List.mem_cons, List.mem_singleton,
        List.not_mem_nil, or_false] at hmem
      rcases hmem with hmem | hmem | hmem <;> subst hmem
      · exact hs
      · exact hs
      · rw [fold_of_selects "validationCode" m.1 key (hno m hm) hkey] at hfold
        simp at hfold
    · rfl

/-- C6, as amended: for a stored event whose payload is a JSON object, the
keys of the object being compared with the JSON names of the fields under
ASCII case folding, (1) the members whose key equals no field name are
skipped: each mapper returns the same on any event of the same envelope whose
payload has the same members of known key in the same order; (2) a mapper of
an event with the single field `domain` succeeds when every value under a key
that equals `domain` is a string or `null`, whatever other keys the object
has, and returns the event with the envelope of the stored event and the
domain that those values leave; (3) it fails when one of those values is
neither; (4) when no key equals `domain` it succeeds with the empty domain;
(5) `DomainVerificationAddedEventMapper` succeeds with the three fields at
their zero values when no key equals one of their names; (6) an event that it
returns has the envelope of the stored event and the zero value in every field
whose name no key equals; (7) and when it fails, the store of the value of a
member into the field that its key selects has failed. -/
theorem mappers_tolerate_missing_and_unknown {VT CV : Type} (codecs : Codecs VT CV)
    (event : Event) (members : List (List Char × Value))
    (hobj : checkValid event.Data.toList = .ok (.object members)) :
    (∀ event2 members2, checkValid event2.Data.toList = .ok (.object members2) →
      BaseEventFromRepo event2 = BaseEventFromRepo event →
      (members2.filter (fun m => selects "domain" m.1)
          = members.filter (fun m => selects "domain" m.1) →
        DomainAddedEventMapper event2 = DomainAddedEventMapper event ∧
        DomainVerificationFailedEventMapper event2 = DomainVerificationFailedEventMapper event ∧
        DomainVerifiedEventMapper event2 = DomainVerifiedEventMapper event ∧
        DomainPrimarySetEventMapper event2 = DomainPrimarySetEventMapper event ∧
        DomainRemovedEventMapper event2 = DomainRemovedEventMapper event) ∧
      (members2.filter (fun m => selects "domain" m.1
            || selects "validationType" m.1 || selects "validationCode" m.1)
          = members.filter (fun m => selects "domain" m.1
            || selects "validationType" m.1 || selects "validationCode" m.1) →
        DomainVerificationAddedEventMapper codecs event2
          = DomainVerificationAddedEventMapper codecs event)) ∧
    ((∀ m ∈ members, selects "domain" m.1 = true → fitsString m.2 = true) →
      DomainAddedEventMapper event
        = (some { BaseEvent := BaseEventFromRepo event
                  Domain := stringOf "domain" members "" }, none) ∧
      DomainVerificationFailedEventMapper event
        = (some { BaseEvent := BaseEventFromRepo event
                  Domain := stringOf "domain" members "" }, none) ∧
      DomainVerifiedEventMapper event
        = (some { BaseEvent := BaseEventFromRepo event
                  Domain := stringOf "domain" members "" }, none) ∧
      DomainPrimarySetEventMapper event
        = (some { BaseEvent := BaseEventFromRepo event
                  Domain := stringOf "domain" members "" }, none) ∧
      DomainRemovedEventMapper event
        = (some { BaseEvent := BaseEventFromRepo event
                  Domain := stringOf "domain" members "" }, none)) ∧
    ((∃ m ∈ members, selects "domain" m.1 = true ∧ fitsString m.2 = false) →
      (DomainAddedEventMapper event).2.isSome = true ∧
      (DomainVerificationFailedEventMapper event).2.isSome = true ∧
      (DomainVerifiedEventMapper event).2.isSome = true ∧
      (DomainPrimarySetEventMapper event).2.isSome = true ∧
      (DomainRemovedEventMapper event).2.isSome = true) ∧
    ((∀ m ∈ members, selects "domain" m.1 = false) →
      DomainAddedEventMapper event
        = (some { BaseEvent := BaseEventFromRepo event, Domain := "" }, none) ∧
      DomainVerificationFailedEventMapper event
        = (some { BaseEvent := BaseEventFromRepo event, Domain := "" }, none) ∧
      DomainVerifiedEventMapper event
        = (some { BaseEvent := BaseEventFromRepo event, Domain := "" }, none) ∧
      DomainPrimarySetEventMapper event
        = (some { BaseEvent := BaseEventFromRepo event, Domain := "" }, none) ∧
      DomainRemovedEventMapper event
        = (some { BaseEvent := BaseEventFromRepo event, Domain := "" }, none)) ∧
    ((∀ m ∈ members, selects "domain" m.1 = false ∧
        selects "validationType" m.1 = false ∧ selects "validationCode" m.1 = false) →
      DomainVerificationAddedEventMapper codecs event
        = (some { BaseEvent := BaseEventFromRepo event, Domain := ""
                  ValidationType := codecs.zeroValidationType, ValidationCode := none },
           none)) ∧
    (∀ e, DomainVerificationAddedEventMapper codecs event = (some e, none) →
      e.BaseEvent = BaseEventFromRepo event ∧
      ((∀ m ∈ members, selects "domain" m.1 = false) → e.Domain = "") ∧
      ((∀ m ∈ members, selects "validationType" m.1 = false) →
        e.ValidationType = codecs.zeroValidationType) ∧
      ((∀ m ∈ members, selects "validationCode" m.1 = false) → e.ValidationCode = none)) ∧
    ((DomainVerificationAddedEventMapper codecs event).2.isSome = true →
      ∃ m ∈ members, ∃ key f s, unquoteBytes m.1 = some key ∧
        findField (DomainVerificationAddedEvent.fields codecs) key = some f ∧
        (f.store m.2 s).2.isSome = true) :=
  ⟨fun event2 members2 hobj2 hbase =>
    ⟨fun hfilter =>
      ⟨DomainAddedEventMapper_known event event2 members members2 hobj hobj2 hbase hfilter,
        DomainVerificationFailedEventMapper_known event event2 members members2 hobj hobj2 hbase
          hfilter,
        DomainVerifiedEventMapper_known event event2 members members2 hobj hobj2 hbase hfilter,
        DomainPrimarySetEventMapper_known event event2 members members2 hobj hobj2 hbase hfilter,
        DomainRemovedEventMapper_known event event2 members members2 hobj hobj2 hbase hfilter⟩,
      DomainVerificationAddedEventMapper_known codecs event event2 members members2 hobj hobj2
        hbase⟩,
    fun hfit =>
      ⟨DomainAddedEventMapper_stores event members hobj hfit,
        DomainVerificationFailedEventMapper_stores event members hobj hfit,
        DomainVerifiedEventMapper_stores event members hobj hfit,
        DomainPrimarySetEventMapper_stores event members hobj hfit,
        DomainRemovedEventMapper_stores event members hobj hfit⟩,
    fun hunfit =>
      ⟨DomainAddedEventMapper_rejects event members hobj hunfit,
        DomainVerificationFailedEventMapper_rejects event members hobj hunfit,
        DomainVerifiedEventMapper_rejects event members hobj hunfit,
        DomainPrimarySetEventMapper_rejects event members hobj hunfit,
        DomainRemovedEventMapper_rejects event members hobj hunfit⟩,
    fun hno =>
      ⟨DomainAddedEventMapper_skips event members hobj hno,
        DomainVerificationFailedEventMapper_skips event members hobj hno,
        DomainVerifiedEventMapper_skips event members hobj hno,
        DomainPrimarySetEventMapper_skips event members hobj hno,
        DomainRemovedEventMapper_skips event members hobj hno⟩,
    DomainVerificationAddedEventMapper_skips codecs event members hobj,
    DomainVerificationAddedEventMapper_absent codecs event members hobj,
    DomainVerificationAddedEventMapper_error_source codecs event members hobj⟩

/-- A witness of C6 as amended: a payload with the key `domain` between two
unknown keys, one of them with a nested value; the mapper returns the domain
stored under the known key, as it does on the payload without the unknown
keys; the empty object gives the empty domain. -/
theorem mappers_tolerate_missing_and_unknown_witness :
    DomainAddedEventMapper (sampleEvent payloadWithUnknown)
      = (some { BaseEvent := BaseEventFromRepo (sampleEvent payloadWithUnknown)
                Domain := "zitadel.ch" }, none) ∧
    DomainAddedEventMapper (sampleEvent payloadKnown)
      = DomainAddedEventMapper (sampleEvent payloadWithUnknown) ∧
    DomainVerificationAddedEventMapper sampleCodecs (sampleEvent payloadKnown)
      = DomainVerificationAddedEventMapper sampleCodecs (sampleEvent payloadWithUnknown) ∧
    DomainVerificationAddedEventMapper sampleCodecs (sampleEvent payloadWithUnknown)
      = (some { BaseEvent := BaseEventFromRepo (sampleEvent payloadWithUnknown)
                Domain := "zitadel.ch", ValidationType := 0, ValidationCode := none }, none) ∧
    DomainAddedEventMapper (sampleEvent "\x7b\x7d")
      = (some { BaseEvent := BaseEventFromRepo (sampleEvent "\x7b\x7d")
                Domain := "" }, none) :=
  have h := mappers_tolerate_missing_and_unknown sampleCodecs
    (sampleEvent payloadWithUnknown)
    [("extra".toList, .array [.number "1".toList, .object [("a".toList, .null)]]),
     ("domain".toList, .string "zitadel.ch".toList),
     ("more".toList, .bool true)] rfl
  have h2 := h.1 (sampleEvent payloadKnown)
    [("domain".toList, .string "zitadel.ch".toList)] rfl rfl
  ⟨(h.2.1 (by decide)).1, (h2.1 rfl).1, h2.2 rfl, rfl, by decide⟩

/-- The counterexample to C6 as stated: the decoder compares the keys of an
object with the JSON names of the fields under ASCII case folding, so that a
payload lacking the key `domain` need not lack the field.  The payload
`\x7b"Domain":1\x7d` is a JSON object without the key `domain`, its only key
being `Domain`; the decoder stores the number into the field `domain`, where
it does not fit, and `DomainAddedEventMapper` fails with an Internal error.
With a string under the key `DOMAIN` the mapper succeeds and the domain of the
event is that string, not the empty one. -/
theorem DomainAddedEventMapper_folds_keys :
    checkValid (sampleEvent "\x7b\"Domain\":1\x7d").Data.toList
      = .ok (.object [("Domain".toList, .number "1".toList)]) ∧
    unquoteBytes "Domain".toList = some "Domain".toList ∧
    ("Domain".toList == "domain".toList) = false ∧
    DomainAddedEventMapper (sampleEvent "\x7b\"Domain\":1\x7d")
      = (none, some (ThrowInternal
          (some (.json (.unmarshalTypeError { Value := "number" })))
          "ORG-GBr52" "unable to unmarshal org domain added")) ∧
    DomainAddedEventMapper (sampleEvent "\x7b\"DOMAIN\":\"zitadel.ch\"\x7d")
      = (some { BaseEvent := BaseEventFromRepo
                  (sampleEvent "\x7b\"DOMAIN\":\"zitadel.ch\"\x7d")
                Domain := "zitadel.ch" }, none) :=
  ⟨rfl, by decide, by decide, by decide, by decide⟩

end Org
